import Mathlib

/-!
Verification development for the `noregex-api` repository (`src/main.py`).

The Python source is shallowly embedded: each `re`-pattern used by the code is
translated into an executable Lean function implementing exactly the semantics
of that pattern under Python's backtracking `re.search` / `re.findall`
(leftmost start position wins; at a fixed position, alternatives are tried in
order; lazy quantifiers take the shortest extension that lets the rest of the
pattern match).  The user-supplied filter patterns of the query endpoint are
modelled by a small executable regular-expression engine (parser plus
Brzozowski-derivative matcher) covering the constructs handled there.
-/

namespace NoRegexApi

/-! ## Python string helpers -/

/-- Python `str.isspace` characters relevant to `str.strip()` / `\s`. -/
def isPySpace (c : Char) : Bool :=
  c = ' ' || c = '\t' || c = '\n' || c = '\r' || c = '\x0b' || c = '\x0c'

/-- ASCII letter, as matched by `[A-Za-z]`. -/
def isAsciiLetter (c : Char) : Bool :=
  ('A' ≤ c && c ≤ 'Z') || ('a' ≤ c && c ≤ 'z')

/-- ASCII digit, as matched by `\d`. -/
def isAsciiDigit (c : Char) : Bool :=
  '0' ≤ c && c ≤ '9'

/-- Word character, as matched by `\w` (ASCII model). -/
def isWordChar (c : Char) : Bool :=
  isAsciiLetter c || isAsciiDigit c || c = '_'

/-- Python `str.strip()`: remove leading and trailing whitespace. -/
def pyStrip (s : String) : String :=
  ⟨((s.data.dropWhile isPySpace).reverse.dropWhile isPySpace).reverse⟩

/-- Python `str.replace('\n', '')`: drop every newline character. -/
def removeNl (s : String) : String :=
  ⟨s.data.filter (fun c => c ≠ '\n')⟩

def pySplitAux (sep : Char) : List Char → List Char → List String
  | acc, [] => [⟨acc.reverse⟩]
  | acc, c :: rest =>
    if c = sep then ⟨acc.reverse⟩ :: pySplitAux sep [] rest
    else pySplitAux sep (c :: acc) rest

/-- Python `str.split(sep)` for a one-character separator (keeps empty parts). -/
def pySplit (sep : Char) (s : String) : List String :=
  pySplitAux sep [] s.data

/-- Python `'|'.join(parts)`. -/
def joinBar : List String → String
  | [] => ""
  | [s] => s
  | s :: rest => s ++ "|" ++ joinBar rest

def digitVal (c : Char) : Nat := c.toNat - '0'.toNat

/-- Digit-run value accumulator for `int()` literals, allowing single
underscores between digits as Python does. -/
def intDigitsAux : Nat → List Char → Option Nat
  | acc, [] => some acc
  | acc, '_' :: rest =>
    match rest with
    | [] => none
    | d :: rest' => if isAsciiDigit d then intDigitsAux (acc * 10 + digitVal d) rest' else none
  | acc, c :: rest =>
    if isAsciiDigit c then intDigitsAux (acc * 10 + digitVal c) rest else none

/-- Parse a nonempty digit sequence (with optional internal underscores). -/
def intDigits : List Char → Option Nat
  | [] => none
  | c :: rest => if isAsciiDigit c then intDigitsAux (digitVal c) rest else none

/-- Python `int(s)`: strip whitespace, optional sign, nonempty digit run.
Returns `none` where Python raises `ValueError`. -/
def pyInt (s : String) : Option Int :=
  match (pyStrip s).data with
  | '+' :: rest => (intDigits rest).map (fun n => (n : Int))
  | '-' :: rest => (intDigits rest).map (fun n => -(n : Int))
  | l => (intDigits l).map (fun n => (n : Int))

/-! ## Generic pattern-scanning primitives

These implement the specific `re` idioms used in `fetch_and_parse_link`. -/

/-- Lazy capture continuation: having matched the opening literal, try to
close with `closeT` after at least one captured character; every captured
character must satisfy `dot` (`.` matches `\n` only under `re.DOTALL`).
Returns the shortest such capture (lazy `(.+?)`). -/
def lazyClose (closeT : List Char) (dot : Char → Bool) : List Char → Option (List Char)
  | [] => none
  | c :: rest =>
    if dot c then
      if closeT.isPrefixOf rest then some [c]
      else
        match lazyClose closeT dot rest with
        | some cap => some (c :: cap)
        | none => none
    else none

/-- First capture of `openT(.+?)closeT` over the input, scanning start
positions left to right, as `re.findall(...)[0]` / `re.search`. -/
def lazyCaptureAux (openT closeT : List Char) (dot : Char → Bool) : List Char → Option (List Char)
  | [] => none
  | l@(_ :: rest) =>
    if openT.isPrefixOf l then
      match lazyClose closeT dot (l.drop openT.length) with
      | some cap => some cap
      | none => lazyCaptureAux openT closeT dot rest
    else lazyCaptureAux openT closeT dot rest

def anyDot (_ : Char) : Bool := true

def nonNlDot (c : Char) : Bool := c ≠ '\n'

/-- `re.findall(open + '(.+?)' + close, s, re.DOTALL)[0]` (first match). -/
def lazyCaptureDotAll (openT closeT s : String) : Option String :=
  (lazyCaptureAux openT.data closeT.data anyDot s.data).map (fun l => ⟨l⟩)

/-- `re.findall(open + '(.+?)' + close, s)[0]` without DOTALL (first match). -/
def lazyCapture (openT closeT s : String) : Option String :=
  (lazyCaptureAux openT.data closeT.data nonNlDot s.data).map (fun l => ⟨l⟩)

/-- `re.findall(tag + '([^<]+)', s)[0]`: first occurrence of `tag` followed by
a nonempty run of non-`<` characters (the greedy capture). -/
def tagRunCaptureAux (tag : List Char) (stop : Char) : List Char → Option (List Char)
  | [] => none
  | l@(_ :: rest) =>
    if tag.isPrefixOf l then
      let run := (l.drop tag.length).takeWhile (fun c => c ≠ stop)
      if run = [] then tagRunCaptureAux tag stop rest else some run
    else tagRunCaptureAux tag stop rest

/-- `re.findall(r'<p class="born-date">([^<]+)', s)[0]`. -/
def bornCapture (s : String) : Option String :=
  (tagRunCaptureAux ("<p class=\"born-date\">").data '<' s.data).map (fun l => ⟨l⟩)

/-- `re.findall(r'src="([^"]+?)"', s)[0]`: the capture class excludes `"`, so
lazy and greedy agree; the closing quote must be present. -/
def srcCaptureAux (tag : List Char) : List Char → Option (List Char)
  | [] => none
  | l@(_ :: rest) =>
    if tag.isPrefixOf l then
      let body := l.drop tag.length
      let run := body.takeWhile (fun c => c ≠ '"')
      if run = [] then srcCaptureAux tag rest
      else
        match body.drop run.length with
        | '"' :: _ => some run
        | _ => srcCaptureAux tag rest
    else srcCaptureAux tag rest

def srcCapture (s : String) : Option String :=
  (srcCaptureAux ("src=\"").data s.data).map (fun l => ⟨l⟩)

/-! ## The `(.+?)<br>(.+)` split (`name_and_year_pattern`) -/

/-- Anchored attempt of `(.+?)<br>(.+)` with at least `accRev.reverse` already
captured: lazily look for the marker; on finding it, the second group is the
maximal newline-free run after it and must be nonempty, otherwise the lazy
group extends (absorbing the marker's characters). -/
def brGo (marker : List Char) : List Char → List Char → Option (List Char × List Char)
  | accRev, l =>
    if marker.isPrefixOf l then
      let after := l.drop marker.length
      let g2 := after.takeWhile (fun c => c ≠ '\n')
      if g2 = [] then
        match l with
        | [] => none
        | c :: rest => if c = '\n' then none else brGo marker (c :: accRev) rest
      else some (accRev.reverse, g2)
    else
      match l with
      | [] => none
      | c :: rest => if c = '\n' then none else brGo marker (c :: accRev) rest

/-- `re.search(r'(.+?)<br>(.+)', s)`: scan start positions left to right. -/
def brSearchAux (marker : List Char) : List Char → Option (List Char × List Char)
  | [] => none
  | c :: rest =>
    match (if c = '\n' then none else brGo marker [c] rest) with
    | some r => some r
    | none => brSearchAux marker rest

/-- Split a paragraph on the `<br>` marker into `(name, prizeLine)`. -/
def brSplit (s : String) : Option (String × String) :=
  (brSearchAux ("<br>").data s.data).map (fun p => (⟨p.1⟩, ⟨p.2⟩))

/-! ## The `category_year_pattern` (three alternatives) -/

/-- Match a literal, returning the remaining input. -/
def litM (lit : List Char) (l : List Char) : Option (List Char) :=
  if lit.isPrefixOf l then some (l.drop lit.length) else none

/-- `(\d{4})`: exactly four digit characters (anything may follow). -/
def fourDigits (l : List Char) : Option String :=
  match l with
  | d1 :: d2 :: d3 :: d4 :: _ =>
    if isAsciiDigit d1 && isAsciiDigit d2 && isAsciiDigit d3 && isAsciiDigit d4 then
      some ⟨[d1, d2, d3, d4]⟩
    else none
  | _ => none

/-- Lazy one-or-more capture over a character class followed by a
continuation: the shortest nonempty class run after which `next` succeeds
wins (`([...]+?)` semantics). -/
def lazyCls {α : Type} (cls : Char → Bool) (next : List Char → Option α) :
    List Char → List Char → Option (List Char × α)
  | _, [] => none
  | accRev, c :: rest =>
    if cls c then
      match next rest with
      | some a => some ((c :: accRev).reverse, a)
      | none => lazyCls cls next (c :: accRev) rest
    else none

def isCatChar (c : Char) : Bool := isAsciiLetter c || isPySpace c

/-- Alternative 1, anchored: `The Nobel Prize in ([A-Za-z\s]+?) (\d{4})`. -/
def shape1 (l : List Char) : Option (String × String) :=
  match litM ("The Nobel Prize in ").data l with
  | none => none
  | some rest =>
    match lazyCls isCatChar
        (fun r => match r with
          | ' ' :: r' => fourDigits r'
          | _ => none) [] rest with
    | none => none
    | some (cat, yr) => some (⟨cat⟩, yr)

/-- Alternative 2, anchored:
`The Sveriges Riksbank Prize in ([A-Za-z\s]+?) in Memory of Alfred Nobel (\d{4})`. -/
def shape2 (l : List Char) : Option (String × String) :=
  match litM ("The Sveriges Riksbank Prize in ").data l with
  | none => none
  | some rest =>
    match lazyCls isCatChar
        (fun r =>
          match litM (" in Memory of Alfred Nobel ").data r with
          | none => none
          | some r' => fourDigits r') [] rest with
    | none => none
    | some (cat, yr) => some (⟨cat⟩, yr)

/-- Alternative 3, anchored: `The Nobel ([A-Za-z]+?) Prize (\d{4})`. -/
def shape3 (l : List Char) : Option (String × String) :=
  match litM ("The Nobel ").data l with
  | none => none
  | some rest =>
    match lazyCls isAsciiLetter
        (fun r =>
          match litM (" Prize ").data r with
          | none => none
          | some r' => fourDigits r') [] rest with
    | none => none
    | some (cat, yr) => some (⟨cat⟩, yr)

/-- All three alternatives at one position, in the pattern's order. -/
def tryShapes (l : List Char) : Option (String × String) :=
  match shape1 l with
  | some r => some r
  | none =>
    match shape2 l with
    | some r => some r
    | none => shape3 l

def catYearAux : List Char → Option (String × String)
  | [] => none
  | l@(_ :: rest) =>
    match tryShapes l with
    | some r => some r
    | none => catYearAux rest

/-- `re.search(category_year_pattern, prize)` with the group dispatch of the
source: the alternative that matched supplies `(category, year)`. -/
def catYearSearch (s : String) : Option (String × String) :=
  catYearAux s.data

/-- The `k`-th shape tried at position `i` of `s` (`k` in 1..3). -/
def shapeAt (k : Nat) (s : String) (i : Nat) : Option (String × String) :=
  match k with
  | 1 => shape1 (s.data.drop i)
  | 2 => shape2 (s.data.drop i)
  | 3 => shape3 (s.data.drop i)
  | _ => none

/-- All three shapes at position `i`, in order. -/
def tryShapesAt (s : String) (i : Nat) : Option (String × String) :=
  tryShapes (s.data.drop i)

/-! ## The `born_date_pattern` (five alternatives) -/

/-- `Born: ([^,]+?), (.+)`, anchored. -/
def bornAlt1 (l : List Char) : Option (String × String) :=
  match litM ("Born: ").data l with
  | none => none
  | some rest =>
    match lazyCls (fun c => c ≠ ',')
        (fun r =>
          match litM (", ").data r with
          | none => none
          | some r' =>
            let g2 := r'.takeWhile (fun c => c ≠ '\n')
            if g2 = [] then none else some g2) [] rest with
    | none => none
    | some (d, p) => some (⟨d⟩, ⟨p⟩)

/-- `Born: (\d{4})`, anchored (place left empty by the source). -/
def bornAlt2 (l : List Char) : Option (String × String) :=
  match litM ("Born: ").data l with
  | none => none
  | some rest => (fourDigits rest).map (fun y => (y, ""))

/-- `(\d{4})` with the remaining input, for alternatives needing more after
the year. -/
def fourDigitsRest (l : List Char) : Option (String × List Char) :=
  match l with
  | d1 :: d2 :: d3 :: d4 :: rest =>
    if isAsciiDigit d1 && isAsciiDigit d2 && isAsciiDigit d3 && isAsciiDigit d4 then
      some (⟨[d1, d2, d3, d4]⟩, rest)
    else none
  | _ => none

/-- `Founded: (\d{4}), (.+)`, anchored. -/
def bornAlt3 (l : List Char) : Option (String × String) :=
  match litM ("Founded: ").data l with
  | none => none
  | some rest =>
    match fourDigitsRest rest with
    | none => none
    | some (y, r) =>
      match litM (", ").data r with
      | none => none
      | some r' =>
        let g := r'.takeWhile (fun c => c ≠ '\n')
        if g = [] then none else some (y, ⟨g⟩)

/-- `Founded: (\d{4})`, anchored. -/
def bornAlt4 (l : List Char) : Option (String × String) :=
  match litM ("Founded: ").data l with
  | none => none
  | some rest => (fourDigitsRest rest).map (fun p => (p.1, ""))

/-- `Residence at the time of the award:(.+)`, anchored; the source strips the
captured place and leaves the date empty. -/
def bornAlt5 (l : List Char) : Option (String × String) :=
  match litM ("Residence at the time of the award:").data l with
  | none => none
  | some rest =>
    let g := rest.takeWhile (fun c => c ≠ '\n')
    if g = [] then none else some ("", pyStrip ⟨g⟩)

def bornAt (l : List Char) : Option (String × String) :=
  match bornAlt1 l with
  | some r => some r
  | none =>
    match bornAlt2 l with
    | some r => some r
    | none =>
      match bornAlt3 l with
      | some r => some r
      | none =>
        match bornAlt4 l with
        | some r => some r
        | none => bornAlt5 l

def bornSearchAux : List Char → Option (String × String)
  | [] => none
  | l@(_ :: rest) =>
    match bornAt l with
    | some r => some r
    | none => bornSearchAux rest

/-- `re.search(born_date_pattern, born_info)` with the source's group
dispatch, producing `(born_date, born_place)`. -/
def bornSearch (s : String) : Option (String × String) :=
  bornSearchAux s.data

/-! ## `extract_year` and the motivation cleanup -/

/-- Four digits followed by a right word boundary. -/
def fourDigitsRightBound : List Char → Option (List Char)
  | d1 :: d2 :: d3 :: d4 :: rest =>
    if isAsciiDigit d1 && isAsciiDigit d2 && isAsciiDigit d3 && isAsciiDigit d4 then
      match rest with
      | [] => some [d1, d2, d3, d4]
      | c :: _ => if isWordChar c then none else some [d1, d2, d3, d4]
    else none
  | _ => none

/-- `\b(\d{4})\b` anchored at the current position given the previous
character (if any): four digits with word boundaries on both sides. -/
def fourDigitsBounded (prev : Option Char) (l : List Char) : Option (List Char) :=
  match prev with
  | some p => if isWordChar p then none else fourDigitsRightBound l
  | none => fourDigitsRightBound l

def extractYearAux : Option Char → List Char → Option (List Char)
  | _, [] => none
  | prev, l@(c :: rest) =>
    match fourDigitsBounded prev l with
    | some ds => some ds
    | none => extractYearAux (some c) rest

/-- `extract_year(date_string)`: first 4-digit run with word boundaries,
converted with `int`. -/
def extract_year (date_string : String) : Option Int :=
  (extractYearAux none date_string.data).bind (fun ds => pyInt ⟨ds⟩)

/-- `re.sub('\W+', ' ', s)` worker: the flag records whether the previous
character belonged to a non-word run (already replaced by one space). -/
def subNonWordAux : Bool → List Char → List Char
  | _, [] => []
  | inRun, c :: rest =>
    if isWordChar c then c :: subNonWordAux false rest
    else if inRun then subNonWordAux true rest
    else ' ' :: subNonWordAux true rest

/-- `re.sub('\W+', ' ', s)`: collapse each maximal run of non-word characters
into a single space. -/
def pySub (s : String) : String := ⟨subNonWordAux false s.data⟩

/-! ## `fetch_and_parse_link` (the parse of a fetched page) -/

/-- `re.findall(r'<div class="content">(.+?)</div>', page, re.DOTALL)[0]`. -/
def extractContent (page : String) : Option String :=
  lazyCaptureDotAll "<div class=\"content\">" "</div>" page

/-- `re.findall(r'<p>(.+?)</p>', content)[0]`. -/
def extractP (content : String) : Option String :=
  lazyCapture "<p>" "</p>" content

/-- Name/category/year columns of the row (three entries), from the cleaned
content block: first paragraph, `<br>` split, then the three prize shapes. -/
def nameCatYearPart (content : String) : List String :=
  match extractP content with
  | none => ["", "", ""]
  | some p0 =>
    let p := pyStrip p0
    match brSplit p with
    | none => ["", "", ""]
    | some (name, prize) =>
      match catYearSearch prize with
      | none => [name, "", ""]
      | some (cat, yr) => [name, cat, yr]

/-- Born date/place columns of the row (two entries). -/
def bornPart (content : String) : List String :=
  match bornCapture content with
  | none => ["", ""]
  | some b0 =>
    match bornSearch (pyStrip b0) with
    | none => ["", ""]
    | some (d, pl) => [d, pl]

/-- Motivation column: `re.search(r'<p>Prize motivation: (.+?)</p>', content)`
then strip and `re.sub('\W+', ' ', ...)`. -/
def motivationPart (content : String) : String :=
  match lazyCapture "<p>Prize motivation: " "</p>" content with
  | none => ""
  | some m => pySub (pyStrip m)

/-- Image column, taken from the whole page: image div, then noscript block,
then the first `src` attribute value, stripped. -/
def imagePart (page : String) : String :=
  match lazyCaptureDotAll "<div class=\"image\">" "</div>" page with
  | none => ""
  | some di =>
    match lazyCapture "<noscript>" "</noscript>" di with
    | none => ""
    | some ns =>
      match srcCapture ns with
      | none => ""
      | some src => pyStrip src

/-- The row built by `fetch_and_parse_link` for a successfully fetched page
(`page_content` is the HTML-unescaped body).  Mirrors the source's sequence of
`append`/`extend` calls: link, then name/category/year, born date/place,
motivation, image. -/
def fetch_and_parse_link (link : String) (page_content : String) : List String :=
  match extractContent page_content with
  | some c0 =>
    let content := removeNl (pyStrip c0)
    [link] ++ nameCatYearPart content ++ bornPart content ++
      [motivationPart content] ++ [imagePart page_content]
  | none => [link] ++ ["", "", "", "", "", ""] ++ [imagePart page_content]

/-! ## Data model and record view -/

/-- One parsed record, as assembled into `nobel_prize_data` from a row
(`row[1]` .. `row[7]`). -/
structure NobelPrize where
  name : String
  category : String
  year : String
  born_date : String
  born_place : String
  motivation : String
  image : String
deriving DecidableEq, Repr

/-- The dictionary built by `scrape_nobel_prizes` from one row. -/
def rowToPrize (row : List String) : NobelPrize :=
  { name := row.getD 1 ""
    category := row.getD 2 ""
    year := row.getD 3 ""
    born_date := row.getD 4 ""
    born_place := row.getD 5 ""
    motivation := row.getD 6 ""
    image := row.getD 7 "" }

/-- The record the scraper stores for one successfully fetched page. -/
def parsedPrize (link : String) (page_content : String) : NobelPrize :=
  rowToPrize (fetch_and_parse_link link page_content)

/-! ## A regular-expression engine for the filter patterns

`re.compile(pat, re.IGNORECASE)` / `.search(text)` as used by the query
endpoint.  The compiler is a recursive-descent parser over the construct
subset handled here (literals, `.`, escapes, character classes, groups,
alternation, `*` `+` `?` with lazy variants); it returns `none` where the
pattern is rejected.  Matching is by Brzozowski derivatives; for a boolean
`search` the greedy/lazy distinction is immaterial. -/

inductive EscCls where
  | d | w | s | nd | nw | ns
deriving DecidableEq, Repr

inductive ClsItem where
  | ch (c : Char)
  | rng (a b : Char)
  | ec (k : EscCls)
deriving DecidableEq, Repr

inductive RE where
  | nul
  | eps
  | anyc
  | lit (c : Char)
  | ecl (k : EscCls)
  | cls (neg : Bool) (items : List ClsItem)
  | alt (a b : RE)
  | cat (a b : RE)
  | star (a : RE)
deriving DecidableEq, Repr

def escMatches : EscCls → Char → Bool
  | .d, c => isAsciiDigit c
  | .w, c => isWordChar c
  | .s, c => isPySpace c
  | .nd, c => ¬ isAsciiDigit c
  | .nw, c => ¬ isWordChar c
  | .ns, c => ¬ isPySpace c

/-- Case-insensitive character equality (`re.IGNORECASE`). -/
def ciEq (a b : Char) : Bool := a = b || a.toLower = b.toLower

def inRangeCI (a b c : Char) : Bool :=
  (a ≤ c && c ≤ b) || (a ≤ c.toLower && c.toLower ≤ b) || (a ≤ c.toUpper && c.toUpper ≤ b)

def clsItemMatches : ClsItem → Char → Bool
  | .ch d, c => ciEq d c
  | .rng a b, c => inRangeCI a b c
  | .ec k, c => escMatches k c

def clsMatches (neg : Bool) (items : List ClsItem) (c : Char) : Bool :=
  let m := items.any (fun it => clsItemMatches it c)
  if neg then ¬ m else m

def nullable : RE → Bool
  | .nul => false
  | .eps => true
  | .anyc => false
  | .lit _ => false
  | .ecl _ => false
  | .cls _ _ => false
  | .alt a b => nullable a || nullable b
  | .cat a b => nullable a && nullable b
  | .star _ => true

def deriv : RE → Char → RE
  | .nul, _ => .nul
  | .eps, _ => .nul
  | .anyc, c => if c = '\n' then .nul else .eps
  | .lit d, c => if ciEq d c then .eps else .nul
  | .ecl k, c => if escMatches k c then .eps else .nul
  | .cls neg items, c => if clsMatches neg items c then .eps else .nul
  | .alt a b, c => .alt (deriv a c) (deriv b c)
  | .cat a b, c =>
    if nullable a then .alt (.cat (deriv a c) b) (deriv b c)
    else .cat (deriv a c) b
  | .star a, c => .cat (deriv a c) (.star a)

/-- Does some prefix of `l` belong to the language of `r`? -/
def matchesPref : RE → List Char → Bool
  | r, [] => nullable r
  | r, c :: t => nullable r || matchesPref (deriv r c) t

/-- `re.search` truthiness: some substring of `l` (possibly empty, at any
start position) belongs to the language of `r`. -/
def searchRE (r : RE) : List Char → Bool
  | [] => nullable r
  | l@(_ :: t) => matchesPref r l || searchRE r t

def searchS (r : RE) (s : String) : Bool := searchRE r s.data

/-! ### Pattern parser -/

/-- One step of the top-level alternation scanner: consume up to the first
`|` at group depth 0 outside a character class.  `d` is the group depth, `b`
whether we are inside a character class, `esc` whether the previous character
was an unconsumed backslash (the next character is then literal).  Returns
the chunk and, when a splitting `|` was found, the remaining input after
it. -/
def chunkTop : Nat → Bool → Bool → List Char → List Char × Option (List Char)
  | _, _, _, [] => ([], none)
  | d, b, esc, c :: cs =>
    if esc then
      let r := chunkTop d b false cs
      (c :: r.1, r.2)
    else if c = '\\' then
      let r := chunkTop d b true cs
      (c :: r.1, r.2)
    else if b then
      let r := chunkTop d (c ≠ ']') false cs
      (c :: r.1, r.2)
    else if c = '[' then
      let r := chunkTop d true false cs
      (c :: r.1, r.2)
    else if c = '(' then
      let r := chunkTop (d + 1) false false cs
      (c :: r.1, r.2)
    else if c = ')' then
      let r := chunkTop (d - 1) false false cs
      (c :: r.1, r.2)
    else if c = '|' && d = 0 then
      ([], some cs)
    else
      let r := chunkTop d b false cs
      (c :: r.1, r.2)

/-- Fueled iteration of `chunkTop`: split on all top-level `|`. -/
def splitTopF : Nat → List Char → List (List Char)
  | 0, l => [l]
  | f + 1, l =>
    match chunkTop 0 false false l with
    | (ch, none) => [ch]
    | (ch, some rest) => ch :: splitTopF f rest

def splitTop (l : List Char) : List (List Char) := splitTopF (l.length + 1) l

/-- Scan predicate: every group paren and character class in the input is
balanced (no stray `)`, no unclosed `(` or `[`, no dangling escape), tracking
the same state as `chunkTop`. -/
def balancedFrom : Nat → Bool → Bool → List Char → Bool
  | d, b, esc, [] => d = 0 && b = false && esc = false
  | d, b, esc, c :: cs =>
    if esc then balancedFrom d b false cs
    else if c = '\\' then balancedFrom d b true cs
    else if b then balancedFrom d (c ≠ ']') false cs
    else if c = '[' then balancedFrom d true false cs
    else if c = '(' then balancedFrom (d + 1) false false cs
    else if c = ')' then decide (d ≠ 0) && balancedFrom (d - 1) false false cs
    else balancedFrom d b false cs

/-- A pattern string with balanced groups/classes/escapes. -/
def balancedS (s : String) : Bool := balancedFrom 0 false false s.data

/-- Split the interior of a group from the input after its `(`: consume until
the matching `)` (depth- class- and escape-aware).  Returns interior and the
input after the closing paren. -/
def grpSplit : Nat → Bool → List Char → Option (List Char × List Char)
  | _, _, [] => none
  | d, b, c :: cs =>
    if c = '\\' then
      match cs with
      | [] => none
      | e :: cs' => (grpSplit d b cs').map (fun r => (c :: e :: r.1, r.2))
    else if b then (grpSplit d (c ≠ ']') cs).map (fun r => (c :: r.1, r.2))
    else if c = '[' then (grpSplit d true cs).map (fun r => (c :: r.1, r.2))
    else if c = '(' then (grpSplit (d + 1) false cs).map (fun r => (c :: r.1, r.2))
    else if c = ')' then
      if d = 0 then some ([], cs)
      else (grpSplit (d - 1) false cs).map (fun r => (c :: r.1, r.2))
    else (grpSplit d b cs).map (fun r => (c :: r.1, r.2))

/-- Escape in atom position: predefined classes, control escapes, and escaped
metacharacters; other alphanumeric escapes are rejected. -/
def escAtom (e : Char) : Option RE :=
  if e = 'd' then some (.ecl .d)
  else if e = 'w' then some (.ecl .w)
  else if e = 's' then some (.ecl .s)
  else if e = 'D' then some (.ecl .nd)
  else if e = 'W' then some (.ecl .nw)
  else if e = 'S' then some (.ecl .ns)
  else if e = 'n' then some (.lit '\n')
  else if e = 't' then some (.lit '\t')
  else if e = 'r' then some (.lit '\r')
  else if isAsciiLetter e || isAsciiDigit e then none
  else some (.lit e)

/-- Escape inside a character class. -/
def escClsItem (e : Char) : Option ClsItem :=
  if e = 'd' then some (.ec .d)
  else if e = 'w' then some (.ec .w)
  else if e = 's' then some (.ec .s)
  else if e = 'D' then some (.ec .nd)
  else if e = 'W' then some (.ec .nw)
  else if e = 'S' then some (.ec .ns)
  else if e = 'n' then some (.ch '\n')
  else if e = 't' then some (.ch '\t')
  else if e = 'r' then some (.ch '\r')
  else if isAsciiLetter e || isAsciiDigit e then none
  else some (.ch e)

/-- Parse the items of a character class up to the closing `]`. -/
def parseClsItems : Nat → List Char → Option (List ClsItem × List Char)
  | 0, _ => none
  | _ + 1, [] => none
  | f + 1, c :: cs =>
    if c = ']' then some ([], cs)
    else if c = '\\' then
      match cs with
      | [] => none
      | e :: cs' =>
        match escClsItem e with
        | none => none
        | some it => (parseClsItems f cs').map (fun r => (it :: r.1, r.2))
    else
      match cs with
      | '-' :: e :: cs' =>
        if e = ']' then
          (parseClsItems f (e :: cs')).map (fun r => (ClsItem.ch c :: ClsItem.ch '-' :: r.1, r.2))
        else if e = '\\' then none
        else (parseClsItems f cs').map (fun r => (ClsItem.rng c e :: r.1, r.2))
      | _ => (parseClsItems f cs).map (fun r => (ClsItem.ch c :: r.1, r.2))

/-- Apply a postfix quantifier (with optional lazy marker) to an atom. -/
def quantAfter (a : RE) (l : List Char) : RE × List Char :=
  match l with
  | '*' :: '?' :: r => (.star a, r)
  | '*' :: r => (.star a, r)
  | '+' :: '?' :: r => (.cat a (.star a), r)
  | '+' :: r => (.cat a (.star a), r)
  | '?' :: '?' :: r => (.alt a .eps, r)
  | '?' :: r => (.alt a .eps, r)
  | _ => (a, l)

def altFold : List RE → Option RE
  | [] => none
  | [r] => some r
  | r :: rest => (altFold rest).map (fun t => RE.alt r t)

/-- Parse one `|`-free chunk: a concatenation of quantified atoms.  Group
interiors are re-split on `|` and parsed as alternations.  After each atom,
its quantifier is read and the rest of the chunk is parsed with one unit of
fuel fewer (the fuel bounds the input length, so it never runs out when
called from `compileRE`). -/
def parseSeq : Nat → List Char → Option RE
  | _, [] => some .eps
  | 0, _ :: _ => none
  | f + 1, c :: cs =>
    if c = '\\' then
      match cs with
      | [] => none
      | e :: cs' =>
        match escAtom e with
        | none => none
        | some a =>
          let q := quantAfter a cs'
          (parseSeq f q.2).map (fun r => RE.cat q.1 r)
    else if c = '(' then
      match grpSplit 0 false cs with
      | none => none
      | some (interior, after) =>
        match interior with
        | '?' :: _ => none
        | _ =>
          match (splitTop interior).mapM (parseSeq f) with
          | none => none
          | some rs =>
            match altFold rs with
            | none => none
            | some inner =>
              let q := quantAfter inner after
              (parseSeq f q.2).map (fun r => RE.cat q.1 r)
    else if c = ')' then none
    else if c = '[' then
      match cs with
      | '^' :: cs' =>
        match parseClsItems (cs'.length + 1) cs' with
        | none => none
        | some (items, after) =>
          let q := quantAfter (RE.cls true items) after
          (parseSeq f q.2).map (fun r => RE.cat q.1 r)
      | _ =>
        match parseClsItems (cs.length + 1) cs with
        | none => none
        | some (items, after) =>
          let q := quantAfter (RE.cls false items) after
          (parseSeq f q.2).map (fun r => RE.cat q.1 r)
    else if c = '|' then none
    else if c = '*' || c = '+' || c = '?' then none
    else if c = '.' then
      let q := quantAfter RE.anyc cs
      (parseSeq f q.2).map (fun r => RE.cat q.1 r)
    else if c = '^' || c = '$' then none
    else
      let q := quantAfter (RE.lit c) cs
      (parseSeq f q.2).map (fun r => RE.cat q.1 r)

/-- `re.compile(pat, re.IGNORECASE)`: `none` models `re.error`. -/
def compileRE (s : String) : Option RE :=
  match (splitTop s.data).mapM (parseSeq (s.data.length + 1)) with
  | none => none
  | some rs => altFold rs

/-! ## The query engine (`get_nobel_prizes`) -/

/-- The filter query parameters (`None` models an absent parameter). -/
structure Filters where
  name_filter : Option String := none
  category_filter : Option String := none
  country_filter : Option String := none
  motivation_filter : Option String := none
  birth_year_start : Option Int := none
  birth_year_end : Option Int := none
  prize_year_start : Option Int := none
  prize_year_end : Option Int := none
deriving DecidableEq, Repr

/-- Failures of the filter pipeline: a non-compiling pattern for one of the
four regex filters, or the uncaught `ValueError` of `int(prize['year'])`. -/
inductive FilterErr where
  | name | category | country | motivation | value
deriving DecidableEq, Repr

instance {ε α : Type} [DecidableEq ε] [DecidableEq α] : DecidableEq (Except ε α) := by
  intro a b
  cases a <;> cases b <;>
    first
    | (apply isFalse; intro h; exact Except.noConfusion h)
    | (rename_i x y
       exact if h : x = y then isTrue (by rw [h]) else
         isFalse (fun hc => h (by injection hc)))

/-- The stripped pattern list of a comma-separated filter. -/
def splitPatterns (s : String) : List String :=
  (pySplit ',' s).map pyStrip

/-- The regex compiled for a comma-separated filter: patterns joined by `|`. -/
def compileJoined (s : String) : Option RE :=
  compileRE (joinBar (splitPatterns s))

/-- `if name_filter:` — Python truthiness of an optional string. -/
def truthy : Option String → Bool
  | none => false
  | some s => s ≠ ""

def nameStep (nf : Option String) (l : List NobelPrize) : Except FilterErr (List NobelPrize) :=
  match nf with
  | none => .ok l
  | some s =>
    if s = "" then .ok l
    else
      match compileRE s with
      | none => .error .name
      | some r => .ok (l.filter (fun pr => searchS r pr.name))

def categoryStep (cf : Option String) (l : List NobelPrize) : Except FilterErr (List NobelPrize) :=
  match cf with
  | none => .ok l
  | some s =>
    if s = "" then .ok l
    else
      match compileJoined s with
      | none => .error .category
      | some r => .ok (l.filter (fun pr => searchS r pr.category))

def countryStep (cf : Option String) (l : List NobelPrize) : Except FilterErr (List NobelPrize) :=
  match cf with
  | none => .ok l
  | some s =>
    if s = "" then .ok l
    else
      match compileJoined s with
      | none => .error .country
      | some r => .ok (l.filter (fun pr => searchS r pr.born_place))

def motivationStep (mf : Option String) (l : List NobelPrize) : Except FilterErr (List NobelPrize) :=
  match mf with
  | none => .ok l
  | some s =>
    if s = "" then .ok l
    else
      match compileRE s with
      | none => .error .motivation
      | some r => .ok (l.filter (fun pr => searchS r pr.motivation))

/-- The birth-year list-comprehension condition (total: `extract_year` guards
itself). -/
def birthPred (bs be : Option Int) (pr : NobelPrize) : Bool :=
  pr.born_date ≠ "" &&
  (match bs with
   | none => true
   | some s =>
     match extract_year pr.born_date with
     | none => false
     | some y => s ≤ y) &&
  (match be with
   | none => true
   | some e =>
     match extract_year pr.born_date with
     | none => false
     | some y => y ≤ e)

def birthStep (bs be : Option Int) (l : List NobelPrize) : Except FilterErr (List NobelPrize) :=
  if bs = none && be = none then .ok l
  else .ok (l.filter (birthPred bs be))

/-- Second conjunct of the prize-year condition, evaluated only when the
first conjunct came out true (Python's `and` short-circuit). -/
def prizeKeepSnd (pe : Option Int) (pr : NobelPrize) (c1 : Bool) : Except Unit Bool :=
  if c1 then
    match pe with
    | none => .ok true
    | some e =>
      match pyInt pr.year with
      | none => .error ()
      | some y => .ok (decide (y ≤ e))
  else .ok false

/-- The prize-year list-comprehension condition
`(ps is None or int(year) >= ps) and (pe is None or int(year) <= pe)`, with
the unguarded `int(prize['year'])`: `.error ()` models the `ValueError`
escaping the handler. -/
def prizeKeep (ps pe : Option Int) (pr : NobelPrize) : Except Unit Bool :=
  match ps with
  | none => prizeKeepSnd pe pr true
  | some s =>
    match pyInt pr.year with
    | none => .error ()
    | some y => prizeKeepSnd pe pr (decide (s ≤ y))

/-- A list comprehension whose condition may raise. -/
def exFilter {ε α : Type} (f : α → Except ε Bool) : List α → Except ε (List α)
  | [] => .ok []
  | x :: xs =>
    match f x with
    | .error e => .error e
    | .ok true =>
      match exFilter f xs with
      | .error e => .error e
      | .ok ys => .ok (x :: ys)
    | .ok false => exFilter f xs

def prizeStep (ps pe : Option Int) (l : List NobelPrize) : Except FilterErr (List NobelPrize) :=
  if ps = none && pe = none then .ok l
  else
    match exFilter (prizeKeep ps pe) l with
    | .error _ => .error .value
    | .ok l' => .ok l'

/-- The filter pipeline of `get_nobel_prizes`, in source order. -/
def filteredData (fs : Filters) (store : List NobelPrize) : Except FilterErr (List NobelPrize) := do
  let l1 ← nameStep fs.name_filter store
  let l2 ← categoryStep fs.category_filter l1
  let l3 ← countryStep fs.country_filter l2
  let l4 ← motivationStep fs.motivation_filter l3
  let l5 ← birthStep fs.birth_year_start fs.birth_year_end l4
  prizeStep fs.prize_year_start fs.prize_year_end l5

/-- `total_pages = (total_records + page_size - 1) // page_size` (Python floor
division). -/
def totalPages (n : Nat) (page_size : Int) : Int :=
  Int.fdiv ((n : Int) + page_size - 1) page_size

/-- `page = min(max(1, page), total_pages)`: the effective page. -/
def effPage (page page_size : Int) (n : Nat) : Int :=
  min (max 1 page) (totalPages n page_size)

/-- Python list slicing `l[a:b]` with integer bounds (negative indices count
from the end; out-of-range bounds are clamped). -/
def pySlice {α : Type} (l : List α) (a b : Int) : List α :=
  let n : Int := l.length
  let norm : Int → Nat := fun i => (if i < 0 then max (n + i) 0 else min i n).toNat
  (l.take (norm b)).drop (norm a)

structure Pagination where
  total_records : Int
  current_page : Int
  total_pages : Int
  next_page : Option Int
  prev_page : Option Int
deriving DecidableEq, Repr

/-- What the handler produces: an error payload (`{"error": ...}`), an
uncaught exception, or data plus pagination. -/
inductive Resp where
  | errorResp (msg : String)
  | exc
  | ok (data : List NobelPrize) (pagination : Pagination)
deriving DecidableEq, Repr

/-- `GET /nobel-prizes`.  `status` and `store` stand for the module globals
`scraping_status.status` and `nobel_prize_data`; the framework guarantees
`page ≥ 1` and `1 ≤ page_size ≤ 100`. -/
def get_nobel_prizes (status : String) (store : List NobelPrize)
    (page page_size : Int) (fs : Filters) : Resp :=
  if status ≠ "Completed" then
    .errorResp "Data scraping is not complete. Please try again later."
  else
    match filteredData fs store with
    | .error .name => .errorResp "Invalid regex pattern for name filter"
    | .error .category => .errorResp "Invalid regex pattern for category filter"
    | .error .country => .errorResp "Invalid regex pattern for country filter"
    | .error .motivation => .errorResp "Invalid regex pattern for motivation filter"
    | .error .value => .exc
    | .ok fd =>
      let total_records : Int := fd.length
      let total_pages := totalPages fd.length page_size
      let page' := min (max 1 page) total_pages
      let start_index := (page' - 1) * page_size
      let end_index := start_index + page_size
      let paginated := pySlice fd start_index end_index
      .ok paginated
        { total_records := total_records
          current_page := page'
          total_pages := total_pages
          next_page := if page' < total_pages then some (page' + 1) else none
          prev_page := if page' > 1 then some (page' - 1) else none }

/-! ### Response accessors -/

def Resp.data? : Resp → Option (List NobelPrize)
  | .ok d _ => some d
  | _ => none

def Resp.pagination? : Resp → Option Pagination
  | .ok _ p => some p
  | _ => none

def Resp.currentPage? (r : Resp) : Option Int := (r.pagination?).map Pagination.current_page

def Resp.totalPages? (r : Resp) : Option Int := (r.pagination?).map Pagination.total_pages

def Resp.nextPage? (r : Resp) : Option (Option Int) := (r.pagination?).map Pagination.next_page

def Resp.prevPage? (r : Resp) : Option (Option Int) := (r.pagination?).map Pagination.prev_page

/-! ## Definitions for claim statements -/

/-- Leftmost match of a single anchored matcher over all start positions. -/
def firstMatch (f : List Char → Option (String × String)) : List Char → Option (String × String)
  | [] => none
  | l@(_ :: rest) =>
    match f l with
    | some r => some r
    | none => firstMatch f rest

/-- Search the whole string with one shape only. -/
def shapeSearch (k : Nat) (s : String) : Option (String × String) :=
  match k with
  | 1 => firstMatch shape1 s.data
  | 2 => firstMatch shape2 s.data
  | 3 => firstMatch shape3 s.data
  | _ => none

/-- Modelled from the spec's words for comparison (claim C7): "the parser
tries exactly three shapes in order ... with the first matching shape
winning", i.e. the whole prize line is searched with shape 1 first, and later
shapes are consulted only if no earlier shape matches anywhere. -/
def catYearSpecOrdered (s : String) : Option (String × String) :=
  match shapeSearch 1 s with
  | some r => some r
  | none =>
    match shapeSearch 2 s with
    | some r => some r
    | none => shapeSearch 3 s

/-- The inclusive prize-year range predicate (false on an unparseable year;
under the all-parseable precondition this is exactly the filter's test). -/
def prizePred (ps pe : Option Int) (pr : NobelPrize) : Bool :=
  match pyInt pr.year with
  | none => false
  | some y =>
    (match ps with | none => true | some s => decide (s ≤ y)) &&
    (match pe with | none => true | some e => decide (y ≤ e))

/-- The pure predicate applied by the name filter when it is active and its
pattern compiles (false branches are unreachable in a successful run). -/
def namePredB (nf : Option String) (pr : NobelPrize) : Bool :=
  match nf with
  | none => true
  | some s =>
    if s = "" then true
    else
      match compileRE s with
      | none => false
      | some r => searchS r pr.name

def categoryPredB (cf : Option String) (pr : NobelPrize) : Bool :=
  match cf with
  | none => true
  | some s =>
    if s = "" then true
    else
      match compileJoined s with
      | none => false
      | some r => searchS r pr.category

def countryPredB (cf : Option String) (pr : NobelPrize) : Bool :=
  match cf with
  | none => true
  | some s =>
    if s = "" then true
    else
      match compileJoined s with
      | none => false
      | some r => searchS r pr.born_place

def motivationPredB (mf : Option String) (pr : NobelPrize) : Bool :=
  match mf with
  | none => true
  | some s =>
    if s = "" then true
    else
      match compileRE s with
      | none => false
      | some r => searchS r pr.motivation

def birthPredSkip (bs be : Option Int) (pr : NobelPrize) : Bool :=
  if bs = none && be = none then true else birthPred bs be pr

def prizePredSkip (ps pe : Option Int) (pr : NobelPrize) : Bool :=
  if ps = none && pe = none then true else prizePred ps pe pr

/-- The conjunction of all six filter predicates of a parameter set. -/
def allPred (fs : Filters) (pr : NobelPrize) : Bool :=
  namePredB fs.name_filter pr && categoryPredB fs.category_filter pr &&
  countryPredB fs.country_filter pr && motivationPredB fs.motivation_filter pr &&
  birthPredSkip fs.birth_year_start fs.birth_year_end pr &&
  prizePredSkip fs.prize_year_start fs.prize_year_end pr

/-- Two parameter sets supply disjoint filter slots. -/
def FiltersDisjoint (a b : Filters) : Prop :=
  (a.name_filter = none ∨ b.name_filter = none) ∧
  (a.category_filter = none ∨ b.category_filter = none) ∧
  (a.country_filter = none ∨ b.country_filter = none) ∧
  (a.motivation_filter = none ∨ b.motivation_filter = none) ∧
  (a.birth_year_start = none ∨ b.birth_year_start = none) ∧
  (a.birth_year_end = none ∨ b.birth_year_end = none) ∧
  (a.prize_year_start = none ∨ b.prize_year_start = none) ∧
  (a.prize_year_end = none ∨ b.prize_year_end = none)

instance (a b : Filters) : Decidable (FiltersDisjoint a b) := by
  unfold FiltersDisjoint; infer_instance

/-- Supplying the filters of both parameter sets at once. -/
def mergeFilters (a b : Filters) : Filters where
  name_filter := a.name_filter <|> b.name_filter
  category_filter := a.category_filter <|> b.category_filter
  country_filter := a.country_filter <|> b.country_filter
  motivation_filter := a.motivation_filter <|> b.motivation_filter
  birth_year_start := a.birth_year_start <|> b.birth_year_start
  birth_year_end := a.birth_year_end <|> b.birth_year_end
  prize_year_start := a.prize_year_start <|> b.prize_year_start
  prize_year_end := a.prize_year_end <|> b.prize_year_end

/-! ### Concrete sample data for witnesses and counterexamples -/

def prA : NobelPrize :=
  { name := "Alpha One", category := "Physics", year := "1901",
    born_date := "1850-05-01", born_place := "France", motivation := "for x", image := "" }

def prB : NobelPrize :=
  { name := "Beta Two", category := "Peace", year := "1950",
    born_date := "1900-01-02", born_place := "Norway", motivation := "for y", image := "" }

def prC : NobelPrize :=
  { name := "Gamma Three", category := "Chemistry", year := "1999",
    born_date := "", born_place := "", motivation := "for z", image := "" }

/-- A record with an empty (unparseable) prize year, as produced for a page
whose fetch failed. -/
def prEmptyYear : NobelPrize :=
  { name := "Delta Four", category := "Medicine", year := "",
    born_date := "", born_place := "", motivation := "", image := "" }

def store3 : List NobelPrize := [prA, prB, prC]

def c2page : String := "<div class=\"content\"><p>Marie Curie</p></div>"

def c2wpage : String := "<div class=\"content\"><p>Single Name</p></div>"

def c8page : String :=
  "<div class=\"content\"><p>A<br>B</p><p class=\"born-date\">Born: 1923-05-03, France</p></div>"

def c7line : String := "The Nobel Physics Prize 1901 and The Nobel Prize in Chemistry 1999"

/-- Skip-guarded two-bound predicate: trivially true when neither bound is
supplied, otherwise a conjunction of a base condition and one condition per
bound (each trivially true for an absent bound). -/
def skipP (B : Bool) (X Y : Option Int → Bool) (bs be : Option Int) : Bool :=
  if bs = none && be = none then true else B && X bs && Y be

def fsName : Filters := { name_filter := some "a" }

def fsCountry : Filters := { country_filter := some "France,Norway" }

/-- Character-level `'|'.join`. -/
def joinBarL : List (List Char) → List Char
  | [] => []
  | [l] => l
  | l :: rest => l ++ '|' :: joinBarL rest

/-! ## Pagination arithmetic lemmas -/

theorem totalPages_natCast (n m : Nat) (hm : 1 ≤ m) :
    totalPages n (m : Int) = ((n + m - 1) / m : Nat) := by
  unfold totalPages
  have h1 : ((n : Int) + (m : Int) - 1) = ((n + m - 1 : Nat) : Int) := by
    rw [Nat.cast_sub (by omega : 1 ≤ n + m)]
    push_cast
    ring
  rw [h1, ← Int.ofNat_fdiv]

theorem ceilDiv_bounds (n m : Nat) (hm : 1 ≤ m) :
    n ≤ ((n + m - 1) / m) * m ∧ ((n + m - 1) / m) * m < n + m := by
  have hdm : m * ((n + m - 1) / m) + (n + m - 1) % m = n + m - 1 :=
    Nat.div_add_mod (n + m - 1) m
  have hmod : (n + m - 1) % m < m := Nat.mod_lt _ (by omega)
  rw [Nat.mul_comm] at hdm
  obtain ⟨M, hM⟩ : ∃ M, ((n + m - 1) / m) * m = M := ⟨_, rfl⟩
  rw [hM] at hdm ⊢
  omega

theorem totalPages_bounds (n : Nat) (psz : Int) (hs : 1 ≤ psz) :
    (n : Int) ≤ totalPages n psz * psz ∧ totalPages n psz * psz < (n : Int) + psz ∧
      0 ≤ totalPages n psz := by
  obtain ⟨m, rfl⟩ : ∃ m : Nat, psz = (m : Int) :=
    ⟨psz.toNat, (Int.toNat_of_nonneg (by linarith)).symm⟩
  have hm : 1 ≤ m := by exact_mod_cast hs
  rw [totalPages_natCast n m hm]
  obtain ⟨hk1, hk2⟩ := ceilDiv_bounds n m hm
  refine ⟨?_, ?_, by positivity⟩
  · exact_mod_cast hk1
  · exact_mod_cast hk2

theorem totalPages_nonneg (n : Nat) (psz : Int) (hs : 1 ≤ psz) : 0 ≤ totalPages n psz :=
  (totalPages_bounds n psz hs).2.2

theorem totalPages_zero_iff (n : Nat) (psz : Int) (hs : 1 ≤ psz) :
    totalPages n psz = 0 ↔ n = 0 := by
  obtain ⟨h1, h2, h3⟩ := totalPages_bounds n psz hs
  constructor
  · intro h
    rw [h, zero_mul] at h1
    omega
  · intro h
    subst h
    simp only [Nat.cast_zero, zero_add] at h2
    by_contra hne
    have hpos : 1 ≤ totalPages 0 psz := by omega
    have hmul : psz ≤ totalPages 0 psz * psz := by
      calc psz = 1 * psz := (one_mul psz).symm
        _ ≤ totalPages 0 psz * psz :=
          mul_le_mul_of_nonneg_right hpos (by linarith)
    linarith

theorem effPage_le (page psz : Int) (n : Nat) :
    effPage page psz n ≤ totalPages n psz :=
  min_le_right _ _

theorem effPage_pos (page psz : Int) (n : Nat) (hs : 1 ≤ psz) (hn : n ≠ 0) :
    1 ≤ effPage page psz n := by
  have h := (totalPages_zero_iff n psz hs).not
  have htp : 1 ≤ totalPages n psz := by
    have := totalPages_nonneg n psz hs
    rcases eq_or_lt_of_le this with h0 | h0
    · exact absurd ((totalPages_zero_iff n psz hs).mp h0.symm) hn
    · omega
  unfold effPage
  omega

theorem effPage_of_empty (page psz : Int) (hs : 1 ≤ psz) :
    effPage page psz 0 = 0 := by
  unfold effPage
  have := (totalPages_zero_iff 0 psz hs).mpr rfl
  omega

/-- Shape of the successful response, for a pipeline returning `L`. -/
theorem get_ok (store : List NobelPrize) (page psz : Int) (fs : Filters)
    (L : List NobelPrize) (h : filteredData fs store = .ok L) :
    get_nobel_prizes "Completed" store page psz fs =
      .ok (pySlice L ((effPage page psz L.length - 1) * psz)
          ((effPage page psz L.length - 1) * psz + psz))
        { total_records := (L.length : Int)
          current_page := effPage page psz L.length
          total_pages := totalPages L.length psz
          next_page :=
            if effPage page psz L.length < totalPages L.length psz then
              some (effPage page psz L.length + 1)
            else none
          prev_page :=
            if effPage page psz L.length > 1 then some (effPage page psz L.length - 1)
            else none } := by
  unfold get_nobel_prizes
  rw [if_neg (by simp), h]
  rfl

/-! ## Claim C4 -/

/-- C4: for every query request whose scraping status is anything other than
"Completed" (Not started, In progress, or an Error state), `get_nobel_prizes`
returns the distinguished "not ready" error payload and never records. -/
theorem claim_C4 (status : String) (store : List NobelPrize) (page psz : Int)
    (fs : Filters) (h : status ≠ "Completed") :
    get_nobel_prizes status store page psz fs =
      .errorResp "Data scraping is not complete. Please try again later." := by
  unfold get_nobel_prizes
  rw [if_pos h]

theorem claim_C4_witness :
    ("In progress" : String) ≠ "Completed" ∧
      get_nobel_prizes "In progress" store3 1 10 {} =
        .errorResp "Data scraping is not complete. Please try again later." :=
  ⟨by decide, claim_C4 "In progress" store3 1 10 {} (by decide)⟩

/-! ## Claim C1 -/

/-- C1 counterexample: with an empty filtered set (here: status Completed,
empty store, no filters, page 3, page size 10) the reported `current_page`
is 0, not 1 as the claim states. -/
theorem claim_C1_counterexample :
    (get_nobel_prizes "Completed" [] 3 10 {}).currentPage? = some 0 ∧
      (get_nobel_prizes "Completed" [] 3 10 {}).currentPage? ≠ some 1 :=
  ⟨by decide, by decide⟩

/-- C1 (amended): before slicing the query clamps the page to
`min(max(1, page), totalPages)`; when the filtered set is nonempty this value
lies in `[1, totalPages]`, but when the filtered set is empty the reported
`current_page` is 0 (since `totalPages` is 0), not 1. -/
theorem claim_C1_amended (store : List NobelPrize) (page psz : Int) (fs : Filters)
    (L : List NobelPrize) (_hp : 1 ≤ page) (hs : 1 ≤ psz)
    (h : filteredData fs store = .ok L) :
    (get_nobel_prizes "Completed" store page psz fs).data? =
        some (pySlice L ((effPage page psz L.length - 1) * psz)
          ((effPage page psz L.length - 1) * psz + psz)) ∧
      (get_nobel_prizes "Completed" store page psz fs).currentPage? =
        some (effPage page psz L.length) ∧
      (L ≠ [] → 1 ≤ effPage page psz L.length ∧
        effPage page psz L.length ≤ totalPages L.length psz) ∧
      (L = [] → effPage page psz L.length = 0) := by
  rw [get_ok store page psz fs L h]
  refine ⟨rfl, rfl, ?_, ?_⟩
  · intro hne
    refine ⟨effPage_pos page psz L.length hs ?_, effPage_le page psz L.length⟩
    simpa using hne
  · intro he
    subst he
    exact effPage_of_empty page psz hs

theorem claim_C1_amended_witness :
    (1 : Int) ≤ 5 ∧ (1 : Int) ≤ 2 ∧ filteredData {} store3 = .ok store3 ∧
      (get_nobel_prizes "Completed" store3 5 2 {}).currentPage? =
        some (effPage 5 2 store3.length) :=
  ⟨by decide, by decide, rfl,
    (claim_C1_amended store3 5 2 {} store3 (by decide) (by decide) rfl).2.1⟩

/-! ## Claim C6 -/

/-- C6 counterexample: with zero records the effective page is 0 and
`prev_page` is null, so "`prev_page` is null iff the effective page equals 1"
fails (null holds while the page is 0, not 1). -/
theorem claim_C6_counterexample :
    (get_nobel_prizes "Completed" [] 1 5 {}).prevPage? = some none ∧
      (get_nobel_prizes "Completed" [] 1 5 {}).currentPage? ≠ some 1 :=
  ⟨by decide, by decide⟩

/-- C6 (amended): `total_pages` is the ceiling of `total_records / page_size`
(characterised by `total_records ≤ total_pages * page_size <
total_records + page_size`); `next_page` is null iff the effective page
equals `total_pages` or there are zero records; `prev_page` is null iff the
effective page equals 1 **or** there are zero records (in which case the
effective page is 0). -/
theorem claim_C6_amended (store : List NobelPrize) (page psz : Int) (fs : Filters)
    (L : List NobelPrize) (_hp : 1 ≤ page) (hs : 1 ≤ psz)
    (h : filteredData fs store = .ok L) :
    (get_nobel_prizes "Completed" store page psz fs).totalPages? =
        some (totalPages L.length psz) ∧
      ((L.length : Int) ≤ totalPages L.length psz * psz ∧
        totalPages L.length psz * psz < (L.length : Int) + psz) ∧
      ((get_nobel_prizes "Completed" store page psz fs).nextPage? = some none ↔
        (effPage page psz L.length = totalPages L.length psz ∨ L.length = 0)) ∧
      ((get_nobel_prizes "Completed" store page psz fs).prevPage? = some none ↔
        (effPage page psz L.length = 1 ∨ L.length = 0)) := by
  rw [get_ok store page psz fs L h]
  obtain ⟨hb1, hb2, hb3⟩ := totalPages_bounds L.length psz hs
  have hle := effPage_le page psz L.length
  refine ⟨rfl, ⟨hb1, hb2⟩, ?_, ?_⟩
  · simp only [Resp.nextPage?, Resp.pagination?, Option.map_some']
    rw [Option.some_inj]
    have hiff : ((if effPage page psz L.length < totalPages L.length psz then
        some (effPage page psz L.length + 1) else none) = (none : Option Int)) ↔
        ¬ effPage page psz L.length < totalPages L.length psz := by
      split <;> simp_all
    rw [hiff]
    by_cases hn : L.length = 0
    · have htp := (totalPages_zero_iff L.length psz hs).mpr hn
      have hep : effPage page psz L.length = 0 := by
        rw [hn]
        exact effPage_of_empty page psz hs
      constructor
      · intro _
        exact Or.inr hn
      · intro _
        omega
    · have hpos := effPage_pos page psz L.length hs hn
      constructor
      · intro hnlt
        exact Or.inl (le_antisymm hle (by omega))
      · intro hor
        rcases hor with heq | hz
        · omega
        · exact absurd hz hn
  · simp only [Resp.prevPage?, Resp.pagination?, Option.map_some']
    rw [Option.some_inj]
    have hiff : ((if effPage page psz L.length > 1 then
        some (effPage page psz L.length - 1) else none) = (none : Option Int)) ↔
        ¬ effPage page psz L.length > 1 := by
      split <;> simp_all
    rw [hiff]
    by_cases hn : L.length = 0
    · have hep : effPage page psz L.length = 0 := by
        rw [hn]
        exact effPage_of_empty page psz hs
      constructor
      · intro _
        exact Or.inr hn
      · intro _
        omega
    · have hpos := effPage_pos page psz L.length hs hn
      constructor
      · intro hngt
        exact Or.inl (by omega)
      · intro hor
        rcases hor with heq | hz
        · omega
        · exact absurd hz hn

theorem claim_C6_amended_witness :
    (1 : Int) ≤ 1 ∧ (1 : Int) ≤ 2 ∧ filteredData {} store3 = .ok store3 ∧
      ((get_nobel_prizes "Completed" store3 1 2 {}).prevPage? = some none ↔
        (effPage 1 2 store3.length = 1 ∨ store3.length = 0)) :=
  ⟨by decide, by decide, rfl,
    (claim_C6_amended store3 1 2 {} store3 (by decide) (by decide) rfl).2.2.2⟩

/-! ## Claim C3: the prize-year filter -/

theorem prizeKeep_ok_of_parse (ps pe : Option Int) (pr : NobelPrize) (y : Int)
    (hy : pyInt pr.year = some y) :
    prizeKeep ps pe pr = .ok (prizePred ps pe pr) := by
  cases ps with
  | none =>
    cases pe with
    | none => simp [prizeKeep, prizeKeepSnd, prizePred, hy]
    | some e => simp [prizeKeep, prizeKeepSnd, prizePred, hy]
  | some s =>
    cases pe with
    | none =>
      by_cases h1 : s ≤ y <;> simp [prizeKeep, prizeKeepSnd, prizePred, hy, h1]
    | some e =>
      by_cases h1 : s ≤ y <;> by_cases h2 : y ≤ e <;>
        simp [prizeKeep, prizeKeepSnd, prizePred, hy, h1, h2]

theorem prizeKeep_error_of_bad (ps pe : Option Int) (pr : NobelPrize)
    (hb : ps ≠ none ∨ pe ≠ none) (hy : pyInt pr.year = none) :
    prizeKeep ps pe pr = .error () := by
  cases ps with
  | none =>
    cases pe with
    | none => simp at hb
    | some e => simp [prizeKeep, prizeKeepSnd, hy]
  | some s => simp [prizeKeep, hy]

theorem exFilter_prizeKeep_ok (ps pe : Option Int) :
    ∀ l : List NobelPrize, (∀ pr ∈ l, (pyInt pr.year).isSome) →
      exFilter (prizeKeep ps pe) l = .ok (l.filter (prizePred ps pe)) := by
  intro l
  induction l with
  | nil => intro _; rfl
  | cons pr rest ih =>
    intro hall
    obtain ⟨y, hy⟩ := Option.isSome_iff_exists.mp (hall pr (List.mem_cons_self pr rest))
    have hrest := ih (fun q hq => hall q (List.mem_cons_of_mem pr hq))
    have hk := prizeKeep_ok_of_parse ps pe pr y hy
    by_cases hp : prizePred ps pe pr = true
    · rw [List.filter_cons_of_pos hp]
      simp only [exFilter, hk, hp, hrest]
    · have hp' : prizePred ps pe pr = false := by
        revert hp
        cases prizePred ps pe pr <;> simp
      rw [List.filter_cons_of_neg (by simp [hp'])]
      simp only [exFilter, hk, hp', hrest]

theorem exFilter_prizeKeep_error (ps pe : Option Int) (hb : ps ≠ none ∨ pe ≠ none) :
    ∀ l : List NobelPrize, (∃ pr ∈ l, pyInt pr.year = none) →
      exFilter (prizeKeep ps pe) l = .error () := by
  intro l
  induction l with
  | nil => rintro ⟨pr, hmem, _⟩; cases hmem
  | cons q rest ih =>
    rintro ⟨pr, hmem, hy⟩
    rcases List.mem_cons.mp hmem with rfl | hmem'
    · simp only [exFilter, prizeKeep_error_of_bad ps pe pr hb hy]
    · rcases hq : prizeKeep ps pe q with e | b
      · simp only [exFilter, hq]
      · have htail := ih ⟨pr, hmem', hy⟩
        cases b <;> simp only [exFilter, hq, htail]

theorem prizeStep_of_bound (ps pe : Option Int) (hb : ps ≠ none ∨ pe ≠ none)
    (l : List NobelPrize) :
    prizeStep ps pe l =
      match exFilter (prizeKeep ps pe) l with
      | .error _ => .error .value
      | .ok l' => .ok l' := by
  unfold prizeStep
  rcases hb with h | h <;> rcases hps : ps with _ | s <;> rcases hpe : pe with _ | e <;>
    simp_all

/-- C3: when either prize-year bound is supplied, the filter keeps exactly
the records whose `year`, converted with `int`, lies inclusively within the
supplied bounds; the conversion is unguarded, so this holds under the
precondition that every record's year parses, and any record with an
unparseable (e.g. empty) year makes the error branch fire: the whole query
raises instead of excluding that record. -/
theorem claim_C3 (ps pe : Option Int) (l : List NobelPrize) (page psz : Int)
    (hb : ps ≠ none ∨ pe ≠ none) :
    ((∀ pr ∈ l, (pyInt pr.year).isSome) →
        prizeStep ps pe l = .ok (l.filter (prizePred ps pe))) ∧
      ((∃ pr ∈ l, pyInt pr.year = none) → prizeStep ps pe l = .error .value) ∧
      ((∃ pr ∈ l, pyInt pr.year = none) →
        get_nobel_prizes "Completed" l page psz
          { prize_year_start := ps, prize_year_end := pe } = .exc) := by
  refine ⟨?_, ?_, ?_⟩
  · intro hall
    rw [prizeStep_of_bound ps pe hb l, exFilter_prizeKeep_ok ps pe l hall]
  · intro hbad
    rw [prizeStep_of_bound ps pe hb l, exFilter_prizeKeep_error ps pe hb l hbad]
  · intro hbad
    have hstep : prizeStep ps pe l = .error .value := by
      rw [prizeStep_of_bound ps pe hb l, exFilter_prizeKeep_error ps pe hb l hbad]
    have hfd : filteredData
        { prize_year_start := ps, prize_year_end := pe } l = .error .value := by
      simp only [filteredData, nameStep, categoryStep, countryStep, motivationStep,
        birthStep]
      simp only [Bind.bind, Except.bind]
      simpa using hstep
    unfold get_nobel_prizes
    rw [if_neg (by simp), hfd]

/-! ## Claim C5: invalid filter patterns -/

theorem nameStep_isOk (nf : Option String) (l : List NobelPrize)
    (hpass : ∀ s, nf = some s → s ≠ "" → (compileRE s).isSome) :
    ∃ l', nameStep nf l = .ok l' := by
  cases nf with
  | none => exact ⟨l, rfl⟩
  | some s =>
    by_cases hs : s = ""
    · exact ⟨l, by simp [nameStep, hs]⟩
    · obtain ⟨r, hr⟩ := Option.isSome_iff_exists.mp (hpass s rfl hs)
      exact ⟨l.filter (fun pr => searchS r pr.name), by simp [nameStep, hs, hr]⟩

theorem categoryStep_isOk (cf : Option String) (l : List NobelPrize)
    (hpass : ∀ s, cf = some s → s ≠ "" → (compileJoined s).isSome) :
    ∃ l', categoryStep cf l = .ok l' := by
  cases cf with
  | none => exact ⟨l, rfl⟩
  | some s =>
    by_cases hs : s = ""
    · exact ⟨l, by simp [categoryStep, hs]⟩
    · obtain ⟨r, hr⟩ := Option.isSome_iff_exists.mp (hpass s rfl hs)
      exact ⟨l.filter (fun pr => searchS r pr.category), by simp [categoryStep, hs, hr]⟩

theorem countryStep_isOk (cf : Option String) (l : List NobelPrize)
    (hpass : ∀ s, cf = some s → s ≠ "" → (compileJoined s).isSome) :
    ∃ l', countryStep cf l = .ok l' := by
  cases cf with
  | none => exact ⟨l, rfl⟩
  | some s =>
    by_cases hs : s = ""
    · exact ⟨l, by simp [countryStep, hs]⟩
    · obtain ⟨r, hr⟩ := Option.isSome_iff_exists.mp (hpass s rfl hs)
      exact ⟨l.filter (fun pr => searchS r pr.born_place), by simp [countryStep, hs, hr]⟩

/-- C5: whenever one of the four regex filter parameters is supplied and its
pattern does not compile, the query returns the explicit invalid-pattern
error payload for that filter (never an exception), and the filters are tried
in source order — name, category, country, motivation — so the first failing
pattern decides the error. -/
theorem claim_C5 (store : List NobelPrize) (page psz : Int) (fs : Filters) :
    (∀ s, fs.name_filter = some s → s ≠ "" → compileRE s = none →
        get_nobel_prizes "Completed" store page psz fs =
          .errorResp "Invalid regex pattern for name filter") ∧
      ((∀ s, fs.name_filter = some s → s ≠ "" → (compileRE s).isSome) →
        ∀ s, fs.category_filter = some s → s ≠ "" → compileJoined s = none →
          get_nobel_prizes "Completed" store page psz fs =
            .errorResp "Invalid regex pattern for category filter") ∧
      ((∀ s, fs.name_filter = some s → s ≠ "" → (compileRE s).isSome) →
        (∀ s, fs.category_filter = some s → s ≠ "" → (compileJoined s).isSome) →
        ∀ s, fs.country_filter = some s → s ≠ "" → compileJoined s = none →
          get_nobel_prizes "Completed" store page psz fs =
            .errorResp "Invalid regex pattern for country filter") ∧
      ((∀ s, fs.name_filter = some s → s ≠ "" → (compileRE s).isSome) →
        (∀ s, fs.category_filter = some s → s ≠ "" → (compileJoined s).isSome) →
        (∀ s, fs.country_filter = some s → s ≠ "" → (compileJoined s).isSome) →
        ∀ s, fs.motivation_filter = some s → s ≠ "" → compileRE s = none →
          get_nobel_prizes "Completed" store page psz fs =
            .errorResp "Invalid regex pattern for motivation filter") := by
  refine ⟨?_, ?_, ?_, ?_⟩
  · intro s hs hne hc
    have h1 : nameStep fs.name_filter store = .error .name := by
      simp [nameStep, hs, hne, hc]
    unfold get_nobel_prizes
    rw [if_neg (by simp)]
    simp only [filteredData, Bind.bind, Except.bind, h1]
  · intro hn s hs hne hc
    obtain ⟨l1, h1⟩ := nameStep_isOk fs.name_filter store hn
    have h2 : categoryStep fs.category_filter l1 = .error .category := by
      simp [categoryStep, hs, hne, hc]
    unfold get_nobel_prizes
    rw [if_neg (by simp)]
    simp only [filteredData, Bind.bind, Except.bind, h1, h2]
  · intro hn hcat s hs hne hc
    obtain ⟨l1, h1⟩ := nameStep_isOk fs.name_filter store hn
    obtain ⟨l2, h2⟩ := categoryStep_isOk fs.category_filter l1 hcat
    have h3 : countryStep fs.country_filter l2 = .error .country := by
      simp [countryStep, hs, hne, hc]
    unfold get_nobel_prizes
    rw [if_neg (by simp)]
    simp only [filteredData, Bind.bind, Except.bind, h1, h2, h3]
  · intro hn hcat hcou s hs hne hc
    obtain ⟨l1, h1⟩ := nameStep_isOk fs.name_filter store hn
    obtain ⟨l2, h2⟩ := categoryStep_isOk fs.category_filter l1 hcat
    obtain ⟨l3, h3⟩ := countryStep_isOk fs.country_filter l2 hcou
    have h4 : motivationStep fs.motivation_filter l3 = .error .motivation := by
      simp [motivationStep, hs, hne, hc]
    unfold get_nobel_prizes
    rw [if_neg (by simp)]
    simp only [filteredData, Bind.bind, Except.bind, h1, h2, h3, h4]

theorem claim_C5_witness :
    get_nobel_prizes "Completed" store3 1 10 { name_filter := some "(" } =
        .errorResp "Invalid regex pattern for name filter" ∧
      get_nobel_prizes "Completed" store3 1 10
          { name_filter := some "alpha", category_filter := some "(" } =
        .errorResp "Invalid regex pattern for category filter" ∧
      get_nobel_prizes "Completed" store3 1 10 { country_filter := some "[z" } =
        .errorResp "Invalid regex pattern for country filter" ∧
      get_nobel_prizes "Completed" store3 1 10 { motivation_filter := some "+x" } =
        .errorResp "Invalid regex pattern for motivation filter" :=
  ⟨(claim_C5 store3 1 10 { name_filter := some "(" }).1 "(" rfl (by decide) (by decide),
    (claim_C5 store3 1 10 { name_filter := some "alpha", category_filter := some "(" }).2.1
      (fun s hs _ => by
        simp only [Option.some_inj] at hs
        subst hs
        decide) "(" rfl (by decide) (by decide),
    (claim_C5 store3 1 10 { country_filter := some "[z" }).2.2.1
      (fun s hs => by cases hs) (fun s hs => by cases hs) "[z" rfl (by decide) (by decide),
    (claim_C5 store3 1 10 { motivation_filter := some "+x" }).2.2.2
      (fun s hs => by cases hs) (fun s hs => by cases hs) (fun s hs => by cases hs)
      "+x" rfl (by decide) (by decide)⟩

theorem claim_C3_witness :
    ((some 1940 : Option Int) ≠ none ∨ (none : Option Int) ≠ none) ∧
      prizeStep (some 1940) none store3 =
        .ok (store3.filter (prizePred (some 1940) none)) ∧
      get_nobel_prizes "Completed" [prEmptyYear] 1 10
        { prize_year_start := some 1940 } = .exc :=
  ⟨Or.inl (by decide),
    (claim_C3 (some 1940) none store3 1 10 (Or.inl (by decide))).1 (by decide),
    (claim_C3 (some 1940) none [prEmptyYear] 1 10 (Or.inl (by decide))).2.2
      ⟨prEmptyYear, by decide, by decide⟩⟩

/-! ## Parser plumbing lemmas -/

theorem litM_append (lit rest : List Char) : litM lit (lit ++ rest) = some rest := by
  unfold litM
  rw [if_pos (List.isPrefixOf_iff_prefix.mpr (List.prefix_append lit rest))]
  rw [List.drop_left]

theorem nameCatYearPart_shape (c : String) :
    ∃ x y z : String, nameCatYearPart c = [x, y, z] := by
  unfold nameCatYearPart
  cases hp : extractP c with
  | none => exact ⟨"", "", "", rfl⟩
  | some p0 =>
    dsimp only
    cases hbr : brSplit (pyStrip p0) with
    | none => exact ⟨"", "", "", rfl⟩
    | some nmpr =>
      obtain ⟨nm, prize⟩ := nmpr
      dsimp only
      cases hcy : catYearSearch prize with
      | none => exact ⟨nm, "", "", rfl⟩
      | some cy =>
        obtain ⟨cat, yr⟩ := cy
        exact ⟨nm, cat, yr, rfl⟩

theorem bornPart_shape (c : String) :
    ∃ x y : String, bornPart c = [x, y] := by
  unfold bornPart
  cases hb : bornCapture c with
  | none => exact ⟨"", "", rfl⟩
  | some b0 =>
    dsimp only
    cases hs : bornSearch (pyStrip b0) with
    | none => exact ⟨"", "", rfl⟩
    | some dp =>
      obtain ⟨d, pl⟩ := dp
      exact ⟨d, pl, rfl⟩

/-- Fields of the parsed record when the content block is present, in terms
of the stage outputs. -/
theorem parsedPrize_eq (link page c0 : String) (hc : extractContent page = some c0) :
    parsedPrize link page =
      { name := (nameCatYearPart (removeNl (pyStrip c0))).getD 0 ""
        category := (nameCatYearPart (removeNl (pyStrip c0))).getD 1 ""
        year := (nameCatYearPart (removeNl (pyStrip c0))).getD 2 ""
        born_date := (bornPart (removeNl (pyStrip c0))).getD 0 ""
        born_place := (bornPart (removeNl (pyStrip c0))).getD 1 ""
        motivation := motivationPart (removeNl (pyStrip c0))
        image := imagePart page } := by
  obtain ⟨x, y, z, h3⟩ := nameCatYearPart_shape (removeNl (pyStrip c0))
  obtain ⟨u, v, h2⟩ := bornPart_shape (removeNl (pyStrip c0))
  unfold parsedPrize fetch_and_parse_link
  rw [hc]
  simp only [h3, h2, rowToPrize, List.cons_append, List.nil_append, List.getD_cons_zero,
    List.getD_cons_succ]

/-! ## Claim C2 -/

/-- C2 counterexample: on a page whose content block and first paragraph are
present but contain no `<br>` marker, the split pattern fails and the parsed
record's `name` is empty — not populated as the claim states (the source's
`else` branch appends three empty strings without appending a name). -/
theorem claim_C2_counterexample :
    extractContent c2page = some "<p>Marie Curie</p>" ∧
      extractP (removeNl (pyStrip "<p>Marie Curie</p>")) = some "Marie Curie" ∧
      brSplit (pyStrip "Marie Curie") = none ∧
      (parsedPrize "L" c2page).name = "" :=
  ⟨by decide, by decide, by decide, by decide⟩

/-- C2 (amended): when the content block is present but either the first
paragraph is absent or the `name<br>prizeLine` split pattern fails to match,
all three of `name`, `category` and `year` default to the empty string (the
source appends `["", "", ""]` in both fallback branches, so `name` is not
populated on a failed split). -/
theorem claim_C2_amended (link page c0 : String)
    (hc : extractContent page = some c0)
    (hfail : extractP (removeNl (pyStrip c0)) = none ∨
      ∃ p0, extractP (removeNl (pyStrip c0)) = some p0 ∧ brSplit (pyStrip p0) = none) :
    (parsedPrize link page).name = "" ∧ (parsedPrize link page).category = "" ∧
      (parsedPrize link page).year = "" := by
  have hrow : nameCatYearPart (removeNl (pyStrip c0)) = ["", "", ""] := by
    unfold nameCatYearPart
    rcases hfail with hp | ⟨p0, hp, hbr⟩
    · rw [hp]
    · rw [hp]
      dsimp only
      rw [hbr]
  rw [parsedPrize_eq link page c0 hc]
  rw [hrow]
  exact ⟨rfl, rfl, rfl⟩

theorem claim_C2_amended_witness :
    extractContent c2wpage = some "<p>Single Name</p>" ∧
      (extractP (removeNl (pyStrip "<p>Single Name</p>")) = some "Single Name" ∧
        brSplit (pyStrip "Single Name") = none) ∧
      ((parsedPrize "L" c2wpage).name = "" ∧ (parsedPrize "L" c2wpage).category = "" ∧
        (parsedPrize "L" c2wpage).year = "") :=
  ⟨by decide, ⟨by decide, by decide⟩,
    claim_C2_amended "L" c2wpage "<p>Single Name</p>" (by decide)
      (Or.inr ⟨"Single Name", by decide, by decide⟩)⟩

/-! ## Claim C8: the born-date fragment -/

theorem data_ne_nil_of_ne_empty (s : String) (h : s ≠ "") : s.data ≠ [] := by
  intro h0
  apply h
  cases s
  simp at h0
  simp [h0]

theorem litM_cons_ne (a b : Char) (lit l : List Char) (h : a ≠ b) :
    litM (a :: lit) (b :: l) = none := by
  unfold litM
  rw [if_neg]
  intro hpre
  rw [List.isPrefixOf_cons₂] at hpre
  have : (a == b) = true := by
    cases hab : a == b
    · rw [hab] at hpre
      simp at hpre
    · rfl
  exact h (by simpa using this)

theorem lazyCls_exact {α : Type} (cls : Char → Bool) (next : List Char → Option α) :
    ∀ (dl accRev tail : List Char) (a : α),
      dl ≠ [] → (∀ c ∈ dl, cls c = true) →
      (∀ k, 1 ≤ k → k < dl.length → next (dl.drop k ++ tail) = none) →
      next tail = some a →
      lazyCls cls next accRev (dl ++ tail) = some (accRev.reverse ++ dl, a) := by
  intro dl
  induction dl with
  | nil =>
    intro accRev tail a hne
    exact absurd rfl hne
  | cons x rest ih =>
    intro accRev tail a _ hcls hskip hnext
    cases rest with
    | nil =>
      show lazyCls cls next accRev (x :: tail) = _
      unfold lazyCls
      rw [if_pos (hcls x (List.mem_cons_self x [])), hnext]
      simp
    | cons y rest' =>
      show lazyCls cls next accRev (x :: (y :: rest' ++ tail)) = _
      unfold lazyCls
      rw [if_pos (hcls x (List.mem_cons_self _ _))]
      have h1 : next (y :: rest' ++ tail) = none := by
        have := hskip 1 (le_refl 1) (by simp)
        simpa using this
      rw [h1]
      have hrec := ih (x :: accRev) tail a (by simp)
        (fun c hc => hcls c (List.mem_cons_of_mem _ hc))
        (fun k hk1 hk2 => by
          have := hskip (k + 1) (by omega) (by simp only [List.length_cons] at hk2 ⊢; omega)
          simpa using this)
        hnext
      rw [hrec]
      simp

theorem bornAlt1_exact (d p : String) (hd : d ≠ "") (hdc : ',' ∉ d.data)
    (hp : p ≠ "") (hpn : '\n' ∉ p.data) :
    bornAlt1 ('B' :: 'o' :: 'r' :: 'n' :: ':' :: ' ' ::
      (d.data ++ ',' :: ' ' :: p.data)) = some (d, p) := by
  unfold bornAlt1
  rw [show ('B' :: 'o' :: 'r' :: 'n' :: ':' :: ' ' :: (d.data ++ ',' :: ' ' :: p.data))
      = ("Born: ").data ++ (d.data ++ ',' :: ' ' :: p.data) from rfl]
  rw [litM_append]
  dsimp only
  have hnext : (fun r =>
      match litM (", ").data r with
      | none => none
      | some r' =>
        let g2 := r'.takeWhile (fun c => c ≠ '\n')
        if g2 = [] then none else some g2) (',' :: ' ' :: p.data) = some p.data := by
    dsimp only
    rw [show (',' :: ' ' :: p.data) = (", ").data ++ p.data from rfl]
    rw [litM_append]
    dsimp only
    rw [List.takeWhile_eq_self_iff.mpr (fun c hc => by
      simp
      intro hcn
      exact hpn (hcn ▸ hc))]
    rw [if_neg (data_ne_nil_of_ne_empty p hp)]
  have hskip : ∀ k, 1 ≤ k → k < d.data.length →
      (fun r =>
        match litM (", ").data r with
        | none => none
        | some r' =>
          let g2 := r'.takeWhile (fun c => c ≠ '\n')
          if g2 = [] then none else some g2) (d.data.drop k ++ ',' :: ' ' :: p.data)
        = none := by
    intro k _ hk
    rw [List.drop_eq_getElem_cons hk]
    dsimp only [List.cons_append]
    have hc : d.data[k] ≠ ',' := fun h => hdc (h ▸ List.getElem_mem hk)
    rw [litM_cons_ne ',' (d.data[k]) [' '] _ (fun h => hc h.symm)]
  have := lazyCls_exact (fun c => c ≠ ',')
    (fun r =>
      match litM (", ").data r with
      | none => none
      | some r' =>
        let g2 := r'.takeWhile (fun c => c ≠ '\n')
        if g2 = [] then none else some g2)
    d.data [] (',' :: ' ' :: p.data) p.data (data_ne_nil_of_ne_empty d hd)
    (fun c hc => by
      simp
      intro h
      exact hdc (h ▸ hc))
    hskip hnext
  rw [this]
  dsimp only [List.reverse_nil, List.nil_append]

theorem bornSearch_pair (d p : String) (hd : d ≠ "") (hdc : ',' ∉ d.data)
    (hp : p ≠ "") (hpn : '\n' ∉ p.data) :
    bornSearch ("Born: " ++ d ++ ", " ++ p) = some (d, p) := by
  unfold bornSearch
  have hform : ("Born: " ++ d ++ ", " ++ p).data
      = 'B' :: 'o' :: 'r' :: 'n' :: ':' :: ' ' :: (d.data ++ ',' :: ' ' :: p.data) := by
    simp only [String.data_append, List.append_assoc]
    rfl
  rw [hform]
  show (match bornAt ('B' :: 'o' :: 'r' :: 'n' :: ':' :: ' ' ::
      (d.data ++ ',' :: ' ' :: p.data)) with
    | some r => some r
    | none => bornSearchAux ('o' :: 'r' :: 'n' :: ':' :: ' ' ::
        (d.data ++ ',' :: ' ' :: p.data))) = some (d, p)
  unfold bornAt
  rw [bornAlt1_exact d p hd hdc hp hpn]

/-- C8: when the cleaned content block yields a born-date fragment of the
form `Born: {date}, {place}` (date nonempty and comma-free, place nonempty
and newline-free), the parsed record has `born_date` = the text before the
comma and `born_place` = the text after the comma-space; when the fragment is
absent, both fields are empty. -/
theorem claim_C8 (link page c0 : String) (hc : extractContent page = some c0) :
    (∀ b0 d p : String, bornCapture (removeNl (pyStrip c0)) = some b0 →
        pyStrip b0 = "Born: " ++ d ++ ", " ++ p →
        d ≠ "" → ',' ∉ d.data → p ≠ "" → '\n' ∉ p.data →
        (parsedPrize link page).born_date = d ∧ (parsedPrize link page).born_place = p) ∧
      (bornCapture (removeNl (pyStrip c0)) = none →
        (parsedPrize link page).born_date = "" ∧
          (parsedPrize link page).born_place = "") := by
  rw [parsedPrize_eq link page c0 hc]
  constructor
  · intro b0 d p hb hsplit hd hdc hp hpn
    have hbp : bornPart (removeNl (pyStrip c0)) = [d, p] := by
      unfold bornPart
      rw [hb]
      dsimp only
      rw [hsplit, bornSearch_pair d p hd hdc hp hpn]
    rw [hbp]
    exact ⟨rfl, rfl⟩
  · intro hb
    have hbp : bornPart (removeNl (pyStrip c0)) = ["", ""] := by
      unfold bornPart
      rw [hb]
    rw [hbp]
    exact ⟨rfl, rfl⟩

theorem claim_C8_witness :
    extractContent c8page =
        some "<p>A<br>B</p><p class=\"born-date\">Born: 1923-05-03, France</p>" ∧
      bornCapture (removeNl (pyStrip
          "<p>A<br>B</p><p class=\"born-date\">Born: 1923-05-03, France</p>")) =
        some "Born: 1923-05-03, France" ∧
      (parsedPrize "L" c8page).born_date = "1923-05-03" ∧
      (parsedPrize "L" c8page).born_place = "France" :=
  ⟨by decide, by decide,
    (claim_C8 "L" c8page
        "<p>A<br>B</p><p class=\"born-date\">Born: 1923-05-03, France</p>" (by decide)).1
      "Born: 1923-05-03, France" "1923-05-03" "France" (by decide) (by decide)
      (by decide) (by decide) (by decide) (by decide)⟩

/-! ## Claim C7: the prize-line shapes -/

theorem tryShapes_nil : tryShapes [] = none := rfl

theorem catYearAux_spec : ∀ (l : List Char) (i : Nat) (r : String × String),
    (∀ j, j < i → tryShapes (l.drop j) = none) → tryShapes (l.drop i) = some r →
    catYearAux l = some r := by
  intro l
  induction l with
  | nil =>
    intro i r _ hi
    rw [List.drop_nil, tryShapes_nil] at hi
    cases hi
  | cons c rest ih =>
    intro i r hlt hi
    cases i with
    | zero =>
      rw [List.drop_zero] at hi
      unfold catYearAux
      rw [hi]
    | succ i' =>
      have h0 : tryShapes (c :: rest) = none := by
        have := hlt 0 (by omega)
        rwa [List.drop_zero] at this
      unfold catYearAux
      rw [h0]
      refine ih i' r (fun j hj => ?_) ?_
      · have := hlt (j + 1) (by omega)
        rwa [List.drop_succ_cons] at this
      · rwa [List.drop_succ_cons] at hi

theorem catYearAux_none : ∀ l : List Char,
    (∀ i, i ≤ l.length → tryShapes (l.drop i) = none) → catYearAux l = none := by
  intro l
  induction l with
  | nil => intro _; rfl
  | cons c rest ih =>
    intro h
    have h0 : tryShapes (c :: rest) = none := by
      have := h 0 (by omega)
      rwa [List.drop_zero] at this
    unfold catYearAux
    rw [h0]
    refine ih (fun i hi => ?_)
    have := h (i + 1) (by simp only [List.length_cons]; omega)
    rwa [List.drop_succ_cons] at this

/-- C7 counterexample: on this prize line, shape 1 ("The Nobel Prize in
{category} {year}") does match — at a later position — yet the code, which
runs one `re.search` over the alternation, returns the shape-3 match found at
the earlier position; the spec-ordered reading ("first matching shape wins")
would return the shape-1 result instead. -/
theorem claim_C7_counterexample :
    catYearSpecOrdered c7line = some ("Chemistry", "1999") ∧
      catYearSearch c7line = some ("Physics", "1901") ∧
      catYearSpecOrdered c7line ≠ catYearSearch c7line :=
  ⟨by decide, by decide, by decide⟩

/-- C7 (amended): the three shapes are alternatives of one left-to-right
search: the match at the earliest string position wins, with the pattern's
shape order (1, 2, 3) breaking ties at the same position — so a later-listed
shape matching earlier in the line takes precedence over an earlier-listed
shape matching later.  The scenario "The Nobel Prize in Physics 1999" gives
category "Physics" and year "1999"; when no shape matches anywhere the search
yields nothing and the record's category and year are both empty (the name
from the split is kept). -/
theorem claim_C7_amended :
    catYearSearch "The Nobel Prize in Physics 1999" = some ("Physics", "1999") ∧
      (∀ (s : String) (r : String × String) (i k : Nat),
        shapeAt k s i = some r → (∀ j, j < i → tryShapesAt s j = none) →
        (∀ k', k' < k → shapeAt k' s i = none) → catYearSearch s = some r) ∧
      (∀ s : String, (∀ i, i ≤ s.data.length → tryShapesAt s i = none) →
        catYearSearch s = none) ∧
      (∀ (link page c0 p0 nm prize : String), extractContent page = some c0 →
        extractP (removeNl (pyStrip c0)) = some p0 →
        brSplit (pyStrip p0) = some (nm, prize) → catYearSearch prize = none →
        (parsedPrize link page).name = nm ∧ (parsedPrize link page).category = "" ∧
          (parsedPrize link page).year = "") := by
  refine ⟨by decide, ?_, ?_, ?_⟩
  · intro s r i k hk hlt hord
    have htry : tryShapes (s.data.drop i) = some r := by
      match k with
      | 0 => cases hk
      | 1 =>
        unfold tryShapes
        rw [show shape1 (s.data.drop i) = some r from hk]
      | 2 =>
        have h1 : shape1 (s.data.drop i) = none := hord 1 (by omega)
        unfold tryShapes
        rw [h1, show shape2 (s.data.drop i) = some r from hk]
      | 3 =>
        have h1 : shape1 (s.data.drop i) = none := hord 1 (by omega)
        have h2 : shape2 (s.data.drop i) = none := hord 2 (by omega)
        unfold tryShapes
        rw [h1, h2]
        exact hk
      | (n + 4) => cases hk
    exact catYearAux_spec s.data i r (fun j hj => hlt j hj) htry
  · intro s h
    exact catYearAux_none s.data (fun i hi => h i hi)
  · intro link page c0 p0 nm prize hc hp hbr hcy
    have hrow : nameCatYearPart (removeNl (pyStrip c0)) = [nm, "", ""] := by
      unfold nameCatYearPart
      rw [hp]
      dsimp only
      rw [hbr]
      dsimp only
      rw [hcy]
    rw [parsedPrize_eq link page c0 hc, hrow]
    exact ⟨rfl, rfl, rfl⟩

theorem claim_C7_amended_witness :
    shapeAt 1 "The Nobel Prize in Physics 1999" 0 = some ("Physics", "1999") ∧
      catYearSearch "The Nobel Prize in Physics 1999" = some ("Physics", "1999") :=
  ⟨by decide,
    claim_C7_amended.2.1 "The Nobel Prize in Physics 1999" ("Physics", "1999") 0 1
      (by decide) (fun j hj => absurd hj (by omega)) (by decide)⟩

/-! ## Claim C9: conjunctive filter composition -/

theorem nameStep_ok_eq (nf : Option String) (l l' : List NobelPrize)
    (h : nameStep nf l = .ok l') : l' = l.filter (namePredB nf) := by
  cases nf with
  | none =>
    simp only [nameStep] at h
    injection h with h2
    subst h2
    exact (List.filter_eq_self.mpr (fun a _ => rfl)).symm
  | some s =>
    by_cases hs : s = ""
    · subst hs
      simp only [nameStep, if_pos rfl] at h
      injection h with h2
      subst h2
      exact (List.filter_eq_self.mpr (fun a _ => rfl)).symm
    · cases hr : compileRE s with
      | none =>
        simp only [nameStep, if_neg hs, hr] at h
        exact Except.noConfusion h
      | some r =>
        simp only [nameStep, if_neg hs, hr] at h
        injection h with h2
        subst h2
        refine List.filter_congr (fun pr _ => ?_)
        simp [namePredB, hs, hr]

theorem categoryStep_ok_eq (cf : Option String) (l l' : List NobelPrize)
    (h : categoryStep cf l = .ok l') : l' = l.filter (categoryPredB cf) := by
  cases cf with
  | none =>
    simp only [categoryStep] at h
    injection h with h2
    subst h2
    exact (List.filter_eq_self.mpr (fun a _ => rfl)).symm
  | some s =>
    by_cases hs : s = ""
    · subst hs
      simp only [categoryStep, if_pos rfl] at h
      injection h with h2
      subst h2
      exact (List.filter_eq_self.mpr (fun a _ => rfl)).symm
    · cases hr : compileJoined s with
      | none =>
        simp only [categoryStep, if_neg hs, hr] at h
        exact Except.noConfusion h
      | some r =>
        simp only [categoryStep, if_neg hs, hr] at h
        injection h with h2
        subst h2
        refine List.filter_congr (fun pr _ => ?_)
        simp [categoryPredB, hs, hr]

theorem countryStep_ok_eq (cf : Option String) (l l' : List NobelPrize)
    (h : countryStep cf l = .ok l') : l' = l.filter (countryPredB cf) := by
  cases cf with
  | none =>
    simp only [countryStep] at h
    injection h with h2
    subst h2
    exact (List.filter_eq_self.mpr (fun a _ => rfl)).symm
  | some s =>
    by_cases hs : s = ""
    · subst hs
      simp only [countryStep, if_pos rfl] at h
      injection h with h2
      subst h2
      exact (List.filter_eq_self.mpr (fun a _ => rfl)).symm
    · cases hr : compileJoined s with
      | none =>
        simp only [countryStep, if_neg hs, hr] at h
        exact Except.noConfusion h
      | some r =>
        simp only [countryStep, if_neg hs, hr] at h
        injection h with h2
        subst h2
        refine List.filter_congr (fun pr _ => ?_)
        simp [countryPredB, hs, hr]

theorem motivationStep_ok_eq (mf : Option String) (l l' : List NobelPrize)
    (h : motivationStep mf l = .ok l') : l' = l.filter (motivationPredB mf) := by
  cases mf with
  | none =>
    simp only [motivationStep] at h
    injection h with h2
    subst h2
    exact (List.filter_eq_self.mpr (fun a _ => rfl)).symm
  | some s =>
    by_cases hs : s = ""
    · subst hs
      simp only [motivationStep, if_pos rfl] at h
      injection h with h2
      subst h2
      exact (List.filter_eq_self.mpr (fun a _ => rfl)).symm
    · cases hr : compileRE s with
      | none =>
        simp only [motivationStep, if_neg hs, hr] at h
        exact Except.noConfusion h
      | some r =>
        simp only [motivationStep, if_neg hs, hr] at h
        injection h with h2
        subst h2
        refine List.filter_congr (fun pr _ => ?_)
        simp [motivationPredB, hs, hr]

theorem birthStep_ok_eq (bs be : Option Int) (l l' : List NobelPrize)
    (h : birthStep bs be l = .ok l') : l' = l.filter (birthPredSkip bs be) := by
  unfold birthStep at h
  by_cases hnn : bs = none ∧ be = none
  · rw [if_pos (by simp [hnn.1, hnn.2])] at h
    injection h with h2
    subst h2
    refine (List.filter_eq_self.mpr (fun a _ => ?_)).symm
    simp [birthPredSkip, hnn.1, hnn.2]
  · have hcond : ¬ (bs = none && be = none) = true := by
      simp only [Bool.and_eq_true, decide_eq_true_eq]
      exact hnn
    rw [if_neg hcond] at h
    injection h with h2
    subst h2
    refine List.filter_congr (fun pr _ => ?_)
    simp only [birthPredSkip, if_neg hcond]

theorem prizeKeep_iff (ps pe : Option Int) (hb : ps ≠ none ∨ pe ≠ none)
    (pr : NobelPrize) : prizeKeep ps pe pr = .ok true ↔ prizePred ps pe pr = true := by
  cases hy : pyInt pr.year with
  | some y =>
    rw [prizeKeep_ok_of_parse ps pe pr y hy]
    constructor
    · intro h
      injection h
    · intro h
      rw [h]
  | none =>
    rw [prizeKeep_error_of_bad ps pe pr hb hy]
    simp [prizePred, hy]

theorem exFilter_ok_eq {ε α : Type} (f : α → Except ε Bool) (g : α → Bool)
    (hg : ∀ x, f x = .ok true ↔ g x = true) :
    ∀ l l' : List α, exFilter f l = .ok l' → l' = l.filter g := by
  intro l
  induction l with
  | nil =>
    intro l' h
    injection h with h2
    subst h2
    rfl
  | cons x xs ih =>
    intro l' h
    rcases hx : f x with e | b
    · simp only [exFilter, hx] at h
      exact Except.noConfusion h
    · cases b with
      | true =>
        simp only [exFilter, hx] at h
        cases hxs : exFilter f xs with
        | error e =>
          rw [hxs] at h
          exact Except.noConfusion h
        | ok ys =>
          rw [hxs] at h
          injection h with h2
          subst h2
          rw [List.filter_cons_of_pos ((hg x).mp hx), ih ys hxs]
      | false =>
        simp only [exFilter, hx] at h
        have hgx : g x = false := by
          cases hgx : g x
          · rfl
          · have := (hg x).mpr hgx
            rw [hx] at this
            injection this with h3
            cases h3
        rw [List.filter_cons_of_neg (by simp [hgx]), ih l' h]

theorem prizeStep_ok_eq (ps pe : Option Int) (l l' : List NobelPrize)
    (h : prizeStep ps pe l = .ok l') : l' = l.filter (prizePredSkip ps pe) := by
  unfold prizeStep at h
  by_cases hnn : ps = none ∧ pe = none
  · rw [if_pos (by simp [hnn.1, hnn.2])] at h
    injection h with h2
    subst h2
    refine (List.filter_eq_self.mpr (fun a _ => ?_)).symm
    simp [prizePredSkip, hnn.1, hnn.2]
  · have hcond : ¬ (ps = none && pe = none) = true := by
      simp only [Bool.and_eq_true, decide_eq_true_eq]
      exact hnn
    have hb : ps ≠ none ∨ pe ≠ none := by tauto
    rw [if_neg hcond] at h
    cases hex : exFilter (prizeKeep ps pe) l with
    | error e =>
      rw [hex] at h
      exact Except.noConfusion h
    | ok ys =>
      rw [hex] at h
      injection h with h2
      subst h2
      have := exFilter_ok_eq (prizeKeep ps pe) (prizePred ps pe)
        (prizeKeep_iff ps pe hb) l ys hex
      rw [this]
      refine List.filter_congr (fun pr _ => ?_)
      simp only [prizePredSkip, if_neg hcond]

/-- Six chained filters collapse to one conjunctive filter. -/
theorem filter_chain6 {α : Type} (p1 p2 p3 p4 p5 p6 : α → Bool) (l : List α) :
    (((((l.filter p1).filter p2).filter p3).filter p4).filter p5).filter p6 =
      l.filter (fun x => p1 x && p2 x && p3 x && p4 x && p5 x && p6 x) := by
  simp only [List.filter_filter]
  refine List.filter_congr (fun x _ => ?_)
  cases p1 x <;> cases p2 x <;> cases p3 x <;> cases p4 x <;> cases p5 x <;>
    cases p6 x <;> rfl

/-- A successful pipeline run computes the conjunctive filter of the store. -/
theorem filteredData_ok_eq (fs : Filters) (store L : List NobelPrize)
    (h : filteredData fs store = .ok L) : L = store.filter (allPred fs) := by
  unfold filteredData at h
  simp only [Bind.bind, Except.bind] at h
  cases h1 : nameStep fs.name_filter store with
  | error e =>
    rw [h1] at h
    exact Except.noConfusion h
  | ok l1 =>
  rw [h1] at h
  dsimp only at h
  cases h2 : categoryStep fs.category_filter l1 with
  | error e =>
    rw [h2] at h
    exact Except.noConfusion h
  | ok l2 =>
  rw [h2] at h
  dsimp only at h
  cases h3 : countryStep fs.country_filter l2 with
  | error e =>
    rw [h3] at h
    exact Except.noConfusion h
  | ok l3 =>
  rw [h3] at h
  dsimp only at h
  cases h4 : motivationStep fs.motivation_filter l3 with
  | error e =>
    rw [h4] at h
    exact Except.noConfusion h
  | ok l4 =>
  rw [h4] at h
  dsimp only at h
  cases h5 : birthStep fs.birth_year_start fs.birth_year_end l4 with
  | error e =>
    rw [h5] at h
    exact Except.noConfusion h
  | ok l5 =>
  rw [h5] at h
  dsimp only at h
  have e1 := nameStep_ok_eq _ _ _ h1
  have e2 := categoryStep_ok_eq _ _ _ h2
  have e3 := countryStep_ok_eq _ _ _ h3
  have e4 := motivationStep_ok_eq _ _ _ h4
  have e5 := birthStep_ok_eq _ _ _ _ h5
  have e6 := prizeStep_ok_eq _ _ _ _ h
  subst e1 e2 e3 e4 e5 e6
  exact filter_chain6 _ _ _ _ _ _ store

theorem skipP_merge (B : Bool) (X Y : Option Int → Bool)
    (hX : X none = true) (hY : Y none = true)
    (abs abe bbs bbe : Option Int)
    (h1 : abs = none ∨ bbs = none) (h2 : abe = none ∨ bbe = none) :
    skipP B X Y (abs <|> bbs) (abe <|> bbe) =
      (skipP B X Y abs abe && skipP B X Y bbs bbe) := by
  rcases h1 with h1 | h1 <;> rcases h2 with h2 | h2 <;> subst h1 <;> subst h2
  · simp [skipP]
  · rcases bbs with _ | s
    · rcases abe with _ | e
      · simp [skipP]
      · cases B <;> simp [skipP, hX, hY]
    · rcases abe with _ | e
      · cases B <;> simp [skipP, hX, hY]
      · cases B
        · simp [skipP, hX, hY]
        · cases hx : X (some s) <;> cases hy : Y (some e) <;>
            simp [skipP, hX, hY, hx, hy]
  · rcases abs with _ | s
    · rcases bbe with _ | e
      · simp [skipP]
      · cases B <;> simp [skipP, hX, hY]
    · rcases bbe with _ | e
      · cases B <;> simp [skipP, hX, hY]
      · cases B
        · simp [skipP, hX, hY]
        · cases hx : X (some s) <;> cases hy : Y (some e) <;>
            simp [skipP, hX, hY, hx, hy]
  · simp [skipP]

theorem birthPredSkip_eq_skipP (bs be : Option Int) (pr : NobelPrize) :
    birthPredSkip bs be pr =
      skipP (decide (pr.born_date ≠ ""))
        (fun o =>
          match o with
          | none => true
          | some s =>
            match extract_year pr.born_date with
            | none => false
            | some y => decide (s ≤ y))
        (fun o =>
          match o with
          | none => true
          | some e =>
            match extract_year pr.born_date with
            | none => false
            | some y => decide (y ≤ e)) bs be := rfl

theorem prizePredSkip_eq_skipP (ps pe : Option Int) (pr : NobelPrize) :
    prizePredSkip ps pe pr =
      skipP ((pyInt pr.year).isSome)
        (fun o =>
          match o with
          | none => true
          | some s =>
            match pyInt pr.year with
            | none => false
            | some y => decide (s ≤ y))
        (fun o =>
          match o with
          | none => true
          | some e =>
            match pyInt pr.year with
            | none => false
            | some y => decide (y ≤ e)) ps pe := by
  cases hy : pyInt pr.year <;>
    rcases ps with _ | s <;> rcases pe with _ | e <;>
    simp [prizePredSkip, prizePred, skipP, hy]

theorem birthPredSkip_merge (abs abe bbs bbe : Option Int) (pr : NobelPrize)
    (h1 : abs = none ∨ bbs = none) (h2 : abe = none ∨ bbe = none) :
    birthPredSkip (abs <|> bbs) (abe <|> bbe) pr =
      (birthPredSkip abs abe pr && birthPredSkip bbs bbe pr) := by
  rw [birthPredSkip_eq_skipP, birthPredSkip_eq_skipP, birthPredSkip_eq_skipP]
  exact skipP_merge _ _ _ rfl rfl abs abe bbs bbe h1 h2

theorem prizePredSkip_merge (aps ape bps bpe : Option Int) (pr : NobelPrize)
    (h1 : aps = none ∨ bps = none) (h2 : ape = none ∨ bpe = none) :
    prizePredSkip (aps <|> bps) (ape <|> bpe) pr =
      (prizePredSkip aps ape pr && prizePredSkip bps bpe pr) := by
  rw [prizePredSkip_eq_skipP, prizePredSkip_eq_skipP, prizePredSkip_eq_skipP]
  exact skipP_merge _ _ _ rfl rfl aps ape bps bpe h1 h2

theorem namePredB_merge (x y : Option String) (pr : NobelPrize)
    (h : x = none ∨ y = none) :
    namePredB (x <|> y) pr = (namePredB x pr && namePredB y pr) := by
  rcases h with h | h <;> subst h
  · simp [namePredB]
  · rcases x with _ | s <;> simp [namePredB]

theorem categoryPredB_merge (x y : Option String) (pr : NobelPrize)
    (h : x = none ∨ y = none) :
    categoryPredB (x <|> y) pr = (categoryPredB x pr && categoryPredB y pr) := by
  rcases h with h | h <;> subst h
  · simp [categoryPredB]
  · rcases x with _ | s <;> simp [categoryPredB]

theorem countryPredB_merge (x y : Option String) (pr : NobelPrize)
    (h : x = none ∨ y = none) :
    countryPredB (x <|> y) pr = (countryPredB x pr && countryPredB y pr) := by
  rcases h with h | h <;> subst h
  · simp [countryPredB]
  · rcases x with _ | s <;> simp [countryPredB]

theorem motivationPredB_merge (x y : Option String) (pr : NobelPrize)
    (h : x = none ∨ y = none) :
    motivationPredB (x <|> y) pr = (motivationPredB x pr && motivationPredB y pr) := by
  rcases h with h | h <;> subst h
  · simp [motivationPredB]
  · rcases x with _ | s <;> simp [motivationPredB]

/-- Under disjointness, the merged predicate is the conjunction. -/
theorem allPred_merge (a b : Filters) (hd : FiltersDisjoint a b) (pr : NobelPrize) :
    allPred (mergeFilters a b) pr = (allPred a pr && allPred b pr) := by
  obtain ⟨d1, d2, d3, d4, d5, d6, d7, d8⟩ := hd
  unfold allPred mergeFilters
  rw [namePredB_merge _ _ _ d1, categoryPredB_merge _ _ _ d2,
    countryPredB_merge _ _ _ d3, motivationPredB_merge _ _ _ d4,
    birthPredSkip_merge _ _ _ _ _ d5 d6, prizePredSkip_merge _ _ _ _ _ d7 d8]
  cases namePredB a.name_filter pr <;> cases namePredB b.name_filter pr <;>
    cases categoryPredB a.category_filter pr <;> cases categoryPredB b.category_filter pr <;>
    cases countryPredB a.country_filter pr <;> cases countryPredB b.country_filter pr <;>
    cases motivationPredB a.motivation_filter pr <;>
    cases motivationPredB b.motivation_filter pr <;>
    cases birthPredSkip a.birth_year_start a.birth_year_end pr <;>
    cases birthPredSkip b.birth_year_start b.birth_year_end pr <;>
    cases prizePredSkip a.prize_year_start a.prize_year_end pr <;>
    cases prizePredSkip b.prize_year_start b.prize_year_end pr <;> rfl

/-- C9: filter composition is conjunctive.  For disjoint parameter sets
`pA`, `pB` whose individual queries and whose combined query all succeed, the
combined record set is the order-preserving intersection (sublist of the
store) of the two individual record sets. -/
theorem claim_C9 (store : List NobelPrize) (pA pB : Filters)
    (hd : FiltersDisjoint pA pB) (L LA LB : List NobelPrize)
    (hAB : filteredData (mergeFilters pA pB) store = .ok L)
    (hA : filteredData pA store = .ok LA)
    (hB : filteredData pB store = .ok LB) :
    L = LA.filter (fun pr => decide (pr ∈ LB)) := by
  have eAB := filteredData_ok_eq _ _ _ hAB
  have eA := filteredData_ok_eq _ _ _ hA
  have eB := filteredData_ok_eq _ _ _ hB
  subst eAB eA eB
  rw [List.filter_filter]
  refine List.filter_congr (fun pr hpr => ?_)
  rw [allPred_merge pA pB hd pr]
  have hmem : decide (pr ∈ List.filter (allPred pB) store) = allPred pB pr := by
    by_cases hm : pr ∈ List.filter (allPred pB) store
    · rw [decide_eq_true hm]
      exact ((List.mem_filter.mp hm).2).symm
    · have : ¬ allPred pB pr = true := fun hp => hm (List.mem_filter.mpr ⟨hpr, hp⟩)
      rw [decide_eq_false hm]
      cases hpb : allPred pB pr
      · rfl
      · exact absurd hpb this
  rw [hmem]
  cases allPred pA pr <;> cases allPred pB pr <;> rfl

theorem claim_C9_witness :
    FiltersDisjoint fsName fsCountry ∧
      filteredData (mergeFilters fsName fsCountry) store3 = .ok [prA, prB] ∧
      filteredData fsName store3 = .ok store3 ∧
      filteredData fsCountry store3 = .ok [prA, prB] ∧
      [prA, prB] = store3.filter (fun pr => decide (pr ∈ [prA, prB])) :=
  ⟨by decide, by decide, by decide, by decide,
    claim_C9 store3 fsName fsCountry (by decide) [prA, prB] store3 [prA, prB]
      (by decide) (by decide) (by decide)⟩

/-! ## Claim C10: empty alternation branches

Scanner lemmas: splitting the `|`-join of bracket-balanced pattern pieces
recovers the pieces' own top-level chunks, so an empty piece contributes an
empty chunk, which parses to `eps` and makes the alternation nullable. -/

theorem chunkTop_some_length : ∀ (l : List Char) (d : Nat) (b esc : Bool)
    (ch r : List Char), chunkTop d b esc l = (ch, some r) → r.length < l.length := by
  intro l
  induction l with
  | nil =>
    intro d b esc ch r h
    simp [chunkTop] at h
  | cons c cs ih =>
    intro d b esc ch r h
    have key : ∀ (d' : Nat) (b' esc' : Bool),
        (c :: (chunkTop d' b' esc' cs).1, (chunkTop d' b' esc' cs).2) = (ch, some r) →
        r.length < (c :: cs).length := by
      intro d' b' esc' hh
      obtain ⟨hA, hB⟩ := Prod.mk.injEq .. ▸ hh
      rcases hcc : chunkTop d' b' esc' cs with ⟨ch', o⟩
      rw [hcc] at hB
      dsimp only at hB
      subst hB
      have := ih d' b' esc' ch' r hcc
      simp only [List.length_cons]
      omega
    simp only [chunkTop] at h
    split_ifs at h with e1 e2 e3 e4 e5 e6 e7
    · exact key _ _ _ h
    · exact key _ _ _ h
    · exact key _ _ _ h
    · exact key _ _ _ h
    · exact key _ _ _ h
    · exact key _ _ _ h
    · obtain ⟨hA, hB⟩ := Prod.mk.injEq .. ▸ h
      injection hB with hB
      subst hB
      simp
    · exact key _ _ _ h

theorem chunkTop_append_some : ∀ (p : List Char) (d : Nat) (b esc : Bool)
    (ch r q : List Char), chunkTop d b esc p = (ch, some r) →
    chunkTop d b esc (p ++ q) = (ch, some (r ++ q)) := by
  intro p
  induction p with
  | nil =>
    intro d b esc ch r q h
    simp [chunkTop] at h
  | cons c cs ih =>
    intro d b esc ch r q h
    have key : ∀ (d' : Nat) (b' esc' : Bool),
        (c :: (chunkTop d' b' esc' cs).1, (chunkTop d' b' esc' cs).2) = (ch, some r) →
        (c :: (chunkTop d' b' esc' (cs ++ q)).1, (chunkTop d' b' esc' (cs ++ q)).2) =
          (ch, some (r ++ q)) := by
      intro d' b' esc' hh
      obtain ⟨hA, hB⟩ := Prod.mk.injEq .. ▸ hh
      rcases hcc : chunkTop d' b' esc' cs with ⟨ch', o⟩
      rw [hcc] at hA hB
      dsimp only at hA hB
      subst hB
      subst hA
      rw [ih d' b' esc' ch' r q hcc]
    simp only [chunkTop, List.cons_append] at h ⊢
    split_ifs at h ⊢ with e1 e2 e3 e4 e5 e6 e7
    · exact key _ _ _ h
    · exact key _ _ _ h
    · exact key _ _ _ h
    · exact key _ _ _ h
    · exact key _ _ _ h
    · exact key _ _ _ h
    · obtain ⟨hA, hB⟩ := Prod.mk.injEq .. ▸ h
      injection hB with hB
      subst hB
      subst hA
      rfl
    · exact key _ _ _ h

theorem chunkTop_none_bal : ∀ (p : List Char) (d : Nat) (b esc : Bool)
    (ch rest : List Char), balancedFrom d b esc p = true →
    chunkTop d b esc p = (ch, none) →
    chunkTop d b esc (p ++ '|' :: rest) = (ch, some rest) := by
  intro p
  induction p with
  | nil =>
    intro d b esc ch rest hbal h
    simp only [balancedFrom, Bool.and_eq_true, decide_eq_true_eq] at hbal
    obtain ⟨⟨hd, hb⟩, hesc⟩ := hbal
    subst hd
    subst hb
    subst hesc
    obtain ⟨hA, _⟩ := Prod.mk.injEq .. ▸ h
    subst hA
    simp [chunkTop]
  | cons c cs ih =>
    intro d b esc ch rest hbal h
    have key : ∀ (d' : Nat) (b' esc' : Bool),
        balancedFrom d' b' esc' cs = true →
        (c :: (chunkTop d' b' esc' cs).1, (chunkTop d' b' esc' cs).2) = (ch, none) →
        (c :: (chunkTop d' b' esc' (cs ++ '|' :: rest)).1,
          (chunkTop d' b' esc' (cs ++ '|' :: rest)).2) = (ch, some rest) := by
      intro d' b' esc' hbal' hh
      obtain ⟨hA, hB⟩ := Prod.mk.injEq .. ▸ hh
      rcases hcc : chunkTop d' b' esc' cs with ⟨ch', o⟩
      rw [hcc] at hA hB
      dsimp only at hA hB
      subst hB
      subst hA
      rw [ih d' b' esc' ch' rest hbal' hcc]
    simp only [chunkTop, List.cons_append] at h ⊢
    simp only [balancedFrom] at hbal
    split_ifs at h ⊢ with e1 e2 e3 e4 e5 e6 e7
    · rw [if_pos e1] at hbal
      exact key _ _ _ hbal h
    · rw [if_neg e1, if_pos e2] at hbal
      exact key _ _ _ hbal h
    · rw [if_neg e1, if_neg e2, if_pos e3] at hbal
      exact key _ _ _ hbal h
    · rw [if_neg e1, if_neg e2, if_neg e3, if_pos e4] at hbal
      exact key _ _ _ hbal h
    · rw [if_neg e1, if_neg e2, if_neg e3, if_neg e4, if_pos e5] at hbal
      exact key _ _ _ hbal h
    · rw [if_neg e1, if_neg e2, if_neg e3, if_neg e4, if_neg e5, if_pos e6] at hbal
      rw [Bool.and_eq_true] at hbal
      exact key _ _ _ hbal.2 h
    · obtain ⟨_, hB⟩ := Prod.mk.injEq .. ▸ h
      exact Option.noConfusion hB
    · rw [if_neg e1, if_neg e2, if_neg e3, if_neg e4, if_neg e5, if_neg e6] at hbal
      exact key _ _ _ hbal h

theorem chunkTop_some_bal : ∀ (p : List Char) (d : Nat) (b esc : Bool)
    (ch r : List Char), balancedFrom d b esc p = true →
    chunkTop d b esc p = (ch, some r) → balancedFrom 0 false false r = true := by
  intro p
  induction p with
  | nil =>
    intro d b esc ch r _ h
    simp [chunkTop] at h
  | cons c cs ih =>
    intro d b esc ch r hbal h
    have key : ∀ (d' : Nat) (b' esc' : Bool),
        balancedFrom d' b' esc' cs = true →
        (c :: (chunkTop d' b' esc' cs).1, (chunkTop d' b' esc' cs).2) = (ch, some r) →
        balancedFrom 0 false false r = true := by
      intro d' b' esc' hbal' hh
      obtain ⟨hA, hB⟩ := Prod.mk.injEq .. ▸ hh
      rcases hcc : chunkTop d' b' esc' cs with ⟨ch', o⟩
      rw [hcc] at hB
      dsimp only at hB
      subst hB
      exact ih d' b' esc' ch' r hbal' hcc
    simp only [chunkTop] at h
    simp only [balancedFrom] at hbal
    split_ifs at h with e1 e2 e3 e4 e5 e6 e7
    · rw [if_pos e1] at hbal
      exact key _ _ _ hbal h
    · rw [if_neg e1, if_pos e2] at hbal
      exact key _ _ _ hbal h
    · rw [if_neg e1, if_neg e2, if_pos e3] at hbal
      exact key _ _ _ hbal h
    · rw [if_neg e1, if_neg e2, if_neg e3, if_pos e4] at hbal
      exact key _ _ _ hbal h
    · rw [if_neg e1, if_neg e2, if_neg e3, if_neg e4, if_pos e5] at hbal
      exact key _ _ _ hbal h
    · rw [if_neg e1, if_neg e2, if_neg e3, if_neg e4, if_neg e5, if_pos e6] at hbal
      rw [Bool.and_eq_true] at hbal
      exact key _ _ _ hbal.2 h
    · obtain ⟨_, hB⟩ := Prod.mk.injEq .. ▸ h
      injection hB with hB
      subst hB
      rw [if_neg e1, if_neg e2, if_neg e3, if_neg e4, if_neg e5, if_neg e6] at hbal
      simp only [Bool.and_eq_true, decide_eq_true_eq] at e7
      obtain ⟨_, hd0⟩ := e7
      subst hd0
      have hb : b = false := by
        cases hbc : b
        · rfl
        · exact absurd hbc e3
      rw [hb] at hbal
      exact hbal
    · rw [if_neg e1, if_neg e2, if_neg e3, if_neg e4, if_neg e5, if_neg e6] at hbal
      exact key _ _ _ hbal h

theorem splitTopF_congr : ∀ (f1 : Nat) (l : List Char) (f2 : Nat),
    l.length < f1 → l.length < f2 → splitTopF f1 l = splitTopF f2 l := by
  intro f1
  induction f1 with
  | zero =>
    intro l f2 h1
    omega
  | succ f ihf =>
    intro l f2 h1 h2
    cases f2 with
    | zero => omega
    | succ g =>
      simp only [splitTopF]
      rcases hcc : chunkTop 0 false false l with ⟨ch, o⟩
      cases o with
      | none => rfl
      | some rest =>
        have hlen := chunkTop_some_length l 0 false false ch rest hcc
        dsimp only
        rw [ihf rest g (by omega) (by omega)]

theorem splitTop_mid : ∀ (n : Nat) (p : List Char), p.length ≤ n →
    balancedFrom 0 false false p = true → ∀ rest : List Char,
    splitTop (p ++ '|' :: rest) = splitTop p ++ splitTop rest := by
  intro n
  induction n with
  | zero =>
    intro p hp hbal rest
    have hpn : p = [] := List.length_eq_zero.mp (by omega)
    subst hpn
    simp only [List.nil_append]
    show splitTopF (('|' :: rest).length + 1) ('|' :: rest) = splitTop [] ++ splitTop rest
    simp only [splitTopF, List.length_cons]
    rw [show chunkTop 0 false false ('|' :: rest) = ([], some rest) by simp [chunkTop]]
    show [] :: splitTopF (rest.length + 1) rest = splitTop [] ++ splitTop rest
    rfl
  | succ n ihn =>
    intro p hp hbal rest
    rcases hcc : chunkTop 0 false false p with ⟨ch, o⟩
    cases o with
    | none =>
      have hmid := chunkTop_none_bal p 0 false false ch ('|' :: rest).tail hbal hcc
      unfold splitTop
      rw [show splitTopF ((p ++ '|' :: rest).length + 1) (p ++ '|' :: rest) =
          match chunkTop 0 false false (p ++ '|' :: rest) with
          | (ch, none) => [ch]
          | (ch, some r) => ch :: splitTopF (p ++ '|' :: rest).length r from rfl]
      rw [show ('|' :: rest).tail = rest from rfl] at hmid
      rw [hmid]
      rw [show splitTopF (p.length + 1) p =
          match chunkTop 0 false false p with
          | (ch, none) => [ch]
          | (ch, some r) => ch :: splitTopF p.length r from rfl]
      rw [hcc]
      dsimp only
      show ch :: splitTopF (p ++ '|' :: rest).length rest = [ch] ++ splitTopF (rest.length + 1) rest
      rw [splitTopF_congr _ rest (rest.length + 1) (by simp [List.length_append]; omega) (by omega)]
      rfl
    | some r =>
      have hlen := chunkTop_some_length p 0 false false ch r hcc
      have happ := chunkTop_append_some p 0 false false ch r ('|' :: rest) hcc
      have hbr := chunkTop_some_bal p 0 false false ch r hbal hcc
      unfold splitTop
      rw [show splitTopF ((p ++ '|' :: rest).length + 1) (p ++ '|' :: rest) =
          match chunkTop 0 false false (p ++ '|' :: rest) with
          | (ch, none) => [ch]
          | (ch, some r2) => ch :: splitTopF (p ++ '|' :: rest).length r2 from rfl]
      rw [happ]
      rw [show splitTopF (p.length + 1) p =
          match chunkTop 0 false false p with
          | (ch, none) => [ch]
          | (ch, some r2) => ch :: splitTopF p.length r2 from rfl]
      rw [hcc]
      dsimp only
      have hr1 : splitTopF (p ++ '|' :: rest).length (r ++ '|' :: rest) =
          splitTop (r ++ '|' :: rest) := by
        apply splitTopF_congr
        · simp only [List.length_append, List.length_cons]
          omega
        · omega
      rw [hr1]
      have hr2 : splitTopF p.length r = splitTop r := by
        apply splitTopF_congr
        · omega
        · omega
      rw [hr2]
      have := ihn r (by omega) hbr rest
      rw [this]
      simp [splitTop]

theorem joinBar_data : ∀ parts : List String,
    (joinBar parts).data = joinBarL (parts.map String.data) := by
  intro parts
  induction parts with
  | nil => rfl
  | cons p rest ih =>
    cases rest with
    | nil => rfl
    | cons q rest' =>
      show (p ++ "|" ++ joinBar (q :: rest')).data =
        p.data ++ '|' :: joinBarL ((q :: rest').map String.data)
      rw [String.data_append, String.data_append, ih]
      simp only [List.append_assoc]
      rfl

theorem splitTop_join_mem : ∀ parts : List (List Char),
    (∀ x ∈ parts, balancedFrom 0 false false x = true) → [] ∈ parts →
    [] ∈ splitTop (joinBarL parts) := by
  intro parts
  induction parts with
  | nil =>
    intro _ hmem
    cases hmem
  | cons p rest ih =>
    intro hbal hmem
    cases rest with
    | nil =>
      have hp : ([] : List Char) = p := List.mem_singleton.mp hmem
      rw [← hp]
      show ([] : List Char) ∈ splitTop []
      simp [splitTop, splitTopF, chunkTop]
    | cons q rest' =>
      show ([] : List Char) ∈ splitTop (p ++ '|' :: joinBarL (q :: rest'))
      rw [splitTop_mid p.length p (le_refl _) (hbal p (List.mem_cons_self _ _))
        (joinBarL (q :: rest'))]
      rcases List.mem_cons.mp hmem with hp | hmem'
      · rw [← hp]
        apply List.mem_append.mpr
        left
        simp [splitTop, splitTopF, chunkTop]
      · apply List.mem_append.mpr
        right
        exact ih (fun x hx => hbal x (List.mem_cons_of_mem _ hx)) hmem'

theorem parseSeq_nil : ∀ f : Nat, parseSeq f [] = some RE.eps := by
  intro f
  cases f <;> rfl

theorem optionMapM_mem {α β : Type} (g : α → Option β) :
    ∀ (l : List α) (rs : List β), l.mapM g = some rs →
    ∀ x ∈ l, ∃ y ∈ rs, g x = some y := by
  intro l
  induction l with
  | nil =>
    intro rs h x hx
    cases hx
  | cons a as ih =>
    intro rs h x hx
    rw [List.mapM_cons] at h
    cases hga : g a with
    | none =>
      rw [hga] at h
      simp at h
    | some y =>
      rw [hga] at h
      cases hmas : as.mapM g with
      | none =>
        rw [hmas] at h
        simp at h
      | some ys =>
        rw [hmas] at h
        simp at h
        subst h
        rcases List.mem_cons.mp hx with rfl | hx'
        · exact ⟨y, List.mem_cons_self _ _, hga⟩
        · obtain ⟨z, hz, hgz⟩ := ih ys hmas x hx'
          exact ⟨z, List.mem_cons_of_mem _ hz, hgz⟩

theorem altFold_nullable : ∀ (rs : List RE) (r : RE),
    altFold rs = some r → RE.eps ∈ rs → nullable r = true := by
  intro rs
  induction rs with
  | nil =>
    intro r h _
    exact Option.noConfusion h
  | cons r0 rest ih =>
    intro r h hmem
    cases rest with
    | nil =>
      simp only [altFold] at h
      injection h with h
      subst h
      have := List.mem_singleton.mp hmem
      rw [← this]
      rfl
    | cons r1 rest' =>
      simp only [altFold] at h
      cases hin : altFold (r1 :: rest') with
      | none =>
        rw [hin] at h
        simp at h
      | some t =>
        rw [hin] at h
        simp at h
        subst h
        rcases List.mem_cons.mp hmem with h0 | hmem'
        · rw [← h0]
          rfl
        · have := ih t hin hmem'
          simp [nullable, this]

theorem searchRE_of_nullable (r : RE) (h : nullable r = true) :
    ∀ l : List Char, searchRE r l = true := by
  intro l
  cases l with
  | nil => simpa [searchRE] using h
  | cons c t => simp [searchRE, matchesPref, h]

/-- A successfully compiled comma-joined filter containing an empty element
(with bracket-balanced elements) is nullable. -/
theorem compileJoined_nullable (c : String) (r : RE)
    (hj : compileJoined c = some r)
    (hempty : "" ∈ splitPatterns c)
    (hbal : ∀ p ∈ splitPatterns c, balancedS p = true) :
    nullable r = true := by
  unfold compileJoined compileRE at hj
  cases hm : (splitTop ((joinBar (splitPatterns c)).data)).mapM
      (parseSeq (((joinBar (splitPatterns c)).data).length + 1)) with
  | none =>
    rw [hm] at hj
    exact Option.noConfusion hj
  | some rs =>
    rw [hm] at hj
    dsimp only at hj
    have hmem : ([] : List Char) ∈ splitTop ((joinBar (splitPatterns c)).data) := by
      rw [joinBar_data]
      apply splitTop_join_mem
      · intro x hx
        obtain ⟨p, hp, hpx⟩ := List.mem_map.mp hx
        rw [← hpx]
        exact hbal p hp
      · exact List.mem_map.mpr ⟨"", hempty, rfl⟩
    obtain ⟨y, hy, hgy⟩ := optionMapM_mem _ _ rs hm [] hmem
    rw [parseSeq_nil] at hgy
    injection hgy with hgy
    subst hgy
    exact altFold_nullable rs r hj hy

/-- C10 counterexample: `category_filter = "a(,,)"` splits into
`["a(", "", ")"]`, which contains an empty element, yet the joined pattern
`a(||)` still requires a literal `a` (the empty branches were captured inside
the re-assembled group), so the filter drops a record whose category has no
`a` — it does not keep all records. -/
theorem claim_C10_counterexample :
    "" ∈ splitPatterns "a(,,)" ∧
      categoryStep (some "a(,,)") [prA] = .ok [] ∧
      categoryStep (some "a(,,)") [prA] ≠ .ok [prA] :=
  ⟨by decide, by decide, by decide⟩

/-- C10 (amended): for a category or country filter whose comma-separated
list contains an empty element, **provided each element is itself
bracket-balanced** (no unbalanced group parenthesis, class bracket or
dangling escape — so the empty element stays a top-level alternation branch)
and the joined pattern compiles, the joined regex matches every string and
the filter keeps all records. -/
theorem claim_C10_amended (c c2 : String) (l l2 : List NobelPrize)
    (h1 : c ≠ "") (h2 : "" ∈ splitPatterns c)
    (h3 : ∀ p ∈ splitPatterns c, balancedS p = true)
    (h4 : (compileJoined c).isSome)
    (h5 : c2 ≠ "") (h6 : "" ∈ splitPatterns c2)
    (h7 : ∀ p ∈ splitPatterns c2, balancedS p = true)
    (h8 : (compileJoined c2).isSome) :
    categoryStep (some c) l = .ok l ∧ countryStep (some c2) l2 = .ok l2 := by
  constructor
  · obtain ⟨r, hr⟩ := Option.isSome_iff_exists.mp h4
    have hn := compileJoined_nullable c r hr h2 h3
    simp only [categoryStep, if_neg h1, hr]
    have hall : List.filter (fun pr => searchS r pr.category) l = l :=
      List.filter_eq_self.mpr (fun pr _ => searchRE_of_nullable r hn pr.category.data)
    rw [hall]
  · obtain ⟨r, hr⟩ := Option.isSome_iff_exists.mp h8
    have hn := compileJoined_nullable c2 r hr h6 h7
    simp only [countryStep, if_neg h5, hr]
    have hall : List.filter (fun pr => searchS r pr.born_place) l2 = l2 :=
      List.filter_eq_self.mpr (fun pr _ => searchRE_of_nullable r hn pr.born_place.data)
    rw [hall]

theorem claim_C10_amended_witness :
    ("a," : String) ≠ "" ∧ "" ∈ splitPatterns "a," ∧
      (∀ p ∈ splitPatterns "a,", balancedS p = true) ∧
      (compileJoined "a,").isSome ∧
      categoryStep (some "a,") [prB] = .ok [prB] ∧
      countryStep (some "a,") [prA] = .ok [prA] :=
  ⟨by decide, by decide, by decide, by decide,
    (claim_C10_amended "a," "a," [prB] [prA] (by decide) (by decide) (by decide)
      (by decide) (by decide) (by decide) (by decide) (by decide)).1,
    (claim_C10_amended "a," "a," [prB] [prA] (by decide) (by decide) (by decide)
      (by decide) (by decide) (by decide) (by decide) (by decide)).2⟩

end NoRegexApi